import Mathlib

/-!
Verification of the Poseidon permutation module
(`src/libzmix/bulletproofs_amcl/src/r1cs/gadgets/helper_constraints/poseidon.rs`).

The field element type of the source (`amcl_wrapper::field_elem::FieldElement`,
an external collaborator) is embedded as an arbitrary Lean `Field F`; the
constraint-system collaborator (`ConstraintSystem`, `LinearCombination`,
`Variable`, the non-zero gadget) lives outside the staged sources and is
modelled from the specification, in prover form: every allocated wire carries
the concrete witness value the prover would compute, so "under a valid witness
assignment" becomes evaluation against the assignment the model accumulates.
All other definitions are direct translations of the Rust source; comments
cite the source lines they embed.
-/

namespace Ursa

set_option linter.unusedSectionVars false

variable {F : Type} [Field F]

/-- poseidon.rs lines 12-23: the parameter block. `round_keys` and
`MDS_matrix` are the materialized tables. -/
structure PoseidonParams (F : Type) where
  width : Nat
  full_rounds_beginning : Nat
  full_rounds_end : Nat
  partial_rounds : Nat
  round_keys : List F
  MDS_matrix : List (List F)

/-- poseidon.rs lines 124-129. -/
inductive SboxType where
  | Cube
  | Inverse
  | Quint

/-- poseidon.rs lines 133-148: `apply_sbox`. `elem.square()` is `elem * elem`;
`elem.inverse()` is the field inverse of the external field library (which, as
in Lean, is total; the spec regards its value at zero as undefined). -/
def SboxType.apply_sbox (sb : SboxType) (elem : F) : F :=
  match sb with
  | SboxType.Cube =>
      let sqr := elem * elem
      sqr * elem
  | SboxType.Inverse => elem⁻¹
  | SboxType.Quint =>
      let sq := elem * elem
      let f := sq * sq
      f * elem

/-- poseidon.rs lines 245-251, the S-box layer of a full round: slot `i`
becomes `sbox(state[i] + round_keys[o])` and the key cursor advances once per
slot. The Rust loop runs `i` over `0..width` on a state of length `width`
(asserted at line 220), embedded as structural recursion over the state. -/
def sbox_full_layer (sb : SboxType) (rks : List F) : List F → Nat → List F × Nat
  | [], o => ([], o)
  | x :: rest, o =>
      let y := sb.apply_sbox (x + rks.getD o 0)
      let (ys, o2) := sbox_full_layer sb rks rest (o + 1)
      (y :: ys, o2)

/-- poseidon.rs lines 253-264, the linear layer shared by full and partial
rounds: `next[i] = Σ_j state[j] * M[j][i]`, accumulated into a zero temporary
exactly as the `current_state_temp[i] +=` loop does. -/
def linear_layer (M : List (List F)) (width : Nat) (state : List F) : List F :=
  (List.range width).map (fun i =>
    (List.range width).foldl (fun acc j => acc + state.getD j 0 * (M.getD j []).getD i 0) 0)

/-- poseidon.rs lines 245-264: one full round (S-box layer then linear layer). -/
def full_round (params : PoseidonParams F) (sb : SboxType) (state : List F) (o : Nat) :
    List F × Nat :=
  let (s1, o1) := sbox_full_layer sb params.round_keys state o
  (linear_layer params.MDS_matrix params.width s1, o1)

/-- poseidon.rs lines 237-266: `apply_full_rounds`, iterating `full_round`. -/
def apply_full_rounds (num_rounds : Nat) (params : PoseidonParams F) (sb : SboxType)
    (state : List F) (o : Nat) : List F × Nat :=
  match num_rounds with
  | 0 => (state, o)
  | n + 1 =>
      let (s1, o1) := full_round params sb state o
      apply_full_rounds n params sb s1 o1

/-- poseidon.rs lines 280-283, the key-addition loop of a partial round:
every slot gains its round key and the cursor advances once per slot. -/
def add_round_keys_layer (rks : List F) : List F → Nat → List F × Nat
  | [], o => ([], o)
  | x :: rest, o =>
      let (ys, o2) := add_round_keys_layer rks rest (o + 1)
      ((x + rks.getD o 0) :: ys, o2)

/-- poseidon.rs lines 279-302: one partial round. Keys are added to all `w`
slots, the S-box hits only slot `w-1` (line 288), then the same linear layer
as the full round runs. -/
def partial_round (params : PoseidonParams F) (sb : SboxType) (state : List F) (o : Nat) :
    List F × Nat :=
  let (s1, o1) := add_round_keys_layer params.round_keys state o
  let s2 := s1.set (params.width - 1) (sb.apply_sbox (s1.getD (params.width - 1) 0))
  (linear_layer params.MDS_matrix params.width s2, o1)

/-- poseidon.rs lines 279-302 iterated over `partial_rounds` rounds. -/
def apply_partial_rounds (num_rounds : Nat) (params : PoseidonParams F) (sb : SboxType)
    (state : List F) (o : Nat) : List F × Nat :=
  match num_rounds with
  | 0 => (state, o)
  | n + 1 =>
      let (s1, o1) := partial_round params sb state o
      apply_partial_rounds n params sb s1 o1

/-- poseidon.rs lines 214-316 without the width assertion: the three phases
chained on a key cursor that starts at 0, returning the final state and the
final cursor. -/
def Poseidon_permutation_body (input : List F) (params : PoseidonParams F) (sb : SboxType) :
    List F × Nat :=
  let (s1, o1) := apply_full_rounds params.full_rounds_beginning params sb input 0
  let (s2, o2) := apply_partial_rounds params.partial_rounds params sb s1 o1
  apply_full_rounds params.full_rounds_end params sb s2 o2

/-- poseidon.rs lines 214-316: `Poseidon_permutation`. The
`assert_eq!(input.len(), width)` at line 220 is embedded as the guard;
`none` models the panic. -/
def Poseidon_permutation (input : List F) (params : PoseidonParams F) (sb : SboxType) :
    Option (List F) :=
  if input.length = params.width then
    some (Poseidon_permutation_body input params sb).1
  else none

/-- Modelled from the spec: the error surface of the hash wrappers,
`R1CSError::IncorrectWidthForPoseidon { width, expected }` (errors.rs is not
among the staged sources; the spec names exactly this variant). -/
inductive R1CSError where
  | IncorrectWidthForPoseidon (width : Nat) (expected : Nat)
deriving DecidableEq

/-- poseidon.rs line 480: capacity constant for width 3. -/
def CAP_CONST_W_3 : Nat := 3

/-- poseidon.rs line 482: capacity constant for width 5. -/
def CAP_CONST_W_5 : Nat := 31

/-- poseidon.rs line 484: capacity constant for width 9. -/
def CAP_CONST_W_9 : Nat := 511

/-- poseidon.rs lines 487-508: `Poseidon_hash_2`. The outer `Option` models
panics (the permutation's width assertion and `.remove(1)` on a short
output); `Except` carries the arity error. -/
def Poseidon_hash_2 (inputs : List F) (params : PoseidonParams F) (sb : SboxType) :
    Option (Except R1CSError F) :=
  if inputs.length ≠ 2 then
    some (Except.error (R1CSError.IncorrectWidthForPoseidon 2 inputs.length))
  else
    match Poseidon_permutation (((CAP_CONST_W_3 : Nat) : F) :: inputs) params sb with
    | some out => (out.get? 1).map Except.ok
    | none => none

/-- poseidon.rs lines 557-577: `Poseidon_hash_4`. -/
def Poseidon_hash_4 (inputs : List F) (params : PoseidonParams F) (sb : SboxType) :
    Option (Except R1CSError F) :=
  if inputs.length ≠ 4 then
    some (Except.error (R1CSError.IncorrectWidthForPoseidon 4 inputs.length))
  else
    match Poseidon_permutation (((CAP_CONST_W_5 : Nat) : F) :: inputs) params sb with
    | some out => (out.get? 1).map Except.ok
    | none => none

/-- poseidon.rs lines 631-648: `Poseidon_hash_8`. -/
def Poseidon_hash_8 (inputs : List F) (params : PoseidonParams F) (sb : SboxType) :
    Option (Except R1CSError F) :=
  if inputs.length ≠ 8 then
    some (Except.error (R1CSError.IncorrectWidthForPoseidon 8 inputs.length))
  else
    match Poseidon_permutation (((CAP_CONST_W_9 : Nat) : F) :: inputs) params sb with
    | some out => (out.get? 1).map Except.ok
    | none => none

/-- Modelled from the spec: the compile-time parameter tables
(`ROUND_CONSTS_W_w`, `MDS_ENTRIES_W_w` of poseidon_constants.rs, not among the
staged sources), already decoded to field elements; the two-character prefix
strip and the hex decode belong to the external field library. -/
structure PoseidonTables (F : Type) where
  ROUND_CONSTS_W_3 : List F
  ROUND_CONSTS_W_5 : List F
  ROUND_CONSTS_W_9 : List F
  MDS_ENTRIES_W_3 : List (List F)
  MDS_ENTRIES_W_5 : List (List F)
  MDS_ENTRIES_W_9 : List (List F)

/-- poseidon.rs lines 56-61: the `match width` selecting `ROUND_CONSTS_W_w`. -/
def PoseidonTables.round_consts (tables : PoseidonTables F) (width : Nat) : List F :=
  match width with
  | 3 => tables.ROUND_CONSTS_W_3
  | 5 => tables.ROUND_CONSTS_W_5
  | 9 => tables.ROUND_CONSTS_W_9
  | _ => []

/-- poseidon.rs lines 85-102: the `match width` selecting `MDS_ENTRIES_W_w`. -/
def PoseidonTables.mds_entries (tables : PoseidonTables F) (width : Nat) :
    List (List F) :=
  match width with
  | 3 => tables.MDS_ENTRIES_W_3
  | 5 => tables.MDS_ENTRIES_W_5
  | 9 => tables.MDS_ENTRIES_W_9
  | _ => []

/-- poseidon.rs lines 52-78: `get_round_keys`. Panics (`none`) when fewer
than `total_rounds * width` constants are tabulated; otherwise the table's
prefix of that length is materialized. -/
def PoseidonParams.get_round_keys (tables : PoseidonTables F) (width total_rounds : Nat) :
    Option (List F) :=
  let cap := total_rounds * width
  let ROUND_CONSTS := tables.round_consts width
  if ROUND_CONSTS.length < cap then none
  else some (ROUND_CONSTS.take cap)

/-- poseidon.rs lines 81-121: `get_MDS_matrix`. Panics (`none`) unless the
table has exactly `width` rows of exactly `width` entries; the materialized
matrix copies entry `(i, j)` of the table. -/
def PoseidonParams.get_MDS_matrix (tables : PoseidonTables F) (width : Nat) :
    Option (List (List F)) :=
  let MDS_ENTRIES := tables.mds_entries width
  if MDS_ENTRIES.length ≠ width then none
  else if MDS_ENTRIES.all (fun row => row.length = width) then
    some ((List.range width).map (fun i =>
      (List.range width).map (fun j => (MDS_ENTRIES.getD i []).getD j 0)))
  else none

/-- poseidon.rs lines 28-49: `PoseidonParams::new`. The width guard at line
34 panics for widths outside {3, 5, 9}; table failures propagate. -/
def PoseidonParams.new (tables : PoseidonTables F) (width full_rounds_beginning
    full_rounds_end partial_rounds : Nat) : Option (PoseidonParams F) :=
  if width ≠ 3 ∧ width ≠ 5 ∧ width ≠ 9 then none
  else
    let total_rounds := full_rounds_beginning + partial_rounds + full_rounds_end
    match PoseidonParams.get_round_keys tables width total_rounds,
        PoseidonParams.get_MDS_matrix tables width with
    | some round_keys, some matrix_2 =>
        some ⟨width, full_rounds_beginning, full_rounds_end, partial_rounds,
          round_keys, matrix_2⟩
    | _, _ => none

/-! ### The constraint-system collaborator, modelled from the spec

`Variable`, `LinearCombination` and `ConstraintSystem` live in
bulletproofs_amcl outside the staged sources. They are modelled from the
spec's collaborator interface (spec §6), in prover form: a `ProverCS` carries
the witness assignment the prover accumulates, wire by wire, so that the
value of every emitted variable is determined. -/

/-- Modelled from the spec: a constraint-system wire, either the constant-one
wire or an allocated witness wire. -/
inductive Variable where
  | one
  | var (idx : Nat)
deriving DecidableEq

/-- Modelled from the spec: a linear combination is a formal sum
`Σ c_i * v_i`, kept as a list of (variable, coefficient) terms; the constant
term rides on the constant-one wire. -/
abbrev LinearCombination (F : Type) := List (Variable × F)

/-- The zero linear combination (`LinearCombination::default()`). -/
def LinearCombination.default : LinearCombination F := []

/-- `LC + LC`: terms concatenate. -/
def LinearCombination.addLC (a b : LinearCombination F) : LinearCombination F := a ++ b

/-- `LC + scalar`: a term on the constant-one wire is appended. -/
def LinearCombination.addScalar (lc : LinearCombination F) (k : F) : LinearCombination F :=
  lc ++ [(Variable.one, k)]

/-- `scalar * LC`: every coefficient is scaled. -/
def LinearCombination.scale (k : F) (lc : LinearCombination F) : LinearCombination F :=
  lc.map (fun p => (p.1, p.2 * k))

/-- A `Variable` promoted to a linear combination (`.into()`). -/
def LinearCombination.ofVariable (v : Variable) : LinearCombination F := [(v, 1)]

/-- One pass of `simplify`: fold a term into an accumulator, merging it into
an existing term on the same variable if any. -/
def LinearCombination.addTerm : LinearCombination F → Variable → F → LinearCombination F
  | [], v, c => [(v, c)]
  | (v1, c1) :: rest, v, c =>
      if v1 = v then (v1, c1 + c) :: rest
      else (v1, c1) :: LinearCombination.addTerm rest v c

/-- `simplify()`: canonicalize by collapsing duplicate variables. -/
def LinearCombination.simplify (lc : LinearCombination F) : LinearCombination F :=
  lc.foldl (fun acc p => LinearCombination.addTerm acc p.1 p.2) []

/-- Modelled from the spec: the prover-side constraint system. `assignment`
holds the value of every allocated wire in allocation order; `num_gates`
counts emitted multiplication gates; `pending` holds the left value of a
half-open multiplier pair built by `allocate_single`. -/
structure ProverCS (F : Type) where
  assignment : List F
  num_gates : Nat
  pending : Option F

/-- The value of a wire under the accumulated assignment. -/
def evalVar (asg : List F) : Variable → F
  | Variable.one => 1
  | Variable.var n => asg.getD n 0

/-- `evaluate_lc`: the value of a linear combination under the accumulated
assignment (for the prover this is always available). -/
def evalLC (asg : List F) (lc : LinearCombination F) : F :=
  (lc.map (fun p => evalVar asg p.1 * p.2)).sum

/-- Modelled from the spec: `multiply(a, b)` emits one gate `a * b = out`,
allocating the left, right and output wires at the concrete values the
prover computes for them. -/
def ProverCS.multiply (s : ProverCS F) (a b : LinearCombination F) :
    (Variable × Variable × Variable) × ProverCS F :=
  let n := s.assignment.length
  let va := evalLC s.assignment a
  let vb := evalLC s.assignment b
  ((Variable.var n, Variable.var (n + 1), Variable.var (n + 2)),
    ⟨s.assignment ++ [va, vb, va * vb], s.num_gates + 1, s.pending⟩)

/-- Modelled from the spec: `allocate_single(value)` introduces one witness
wire; a second call completes a multiplier pair and also opens the gate's
output wire, whose value is the pair's product. -/
def ProverCS.allocate_single (s : ProverCS F) (val : F) :
    (Variable × Option Variable) × ProverCS F :=
  match s.pending with
  | none =>
      let n := s.assignment.length
      ((Variable.var n, none), ⟨s.assignment ++ [val], s.num_gates, some val⟩)
  | some l =>
      let n := s.assignment.length
      ((Variable.var n, some (Variable.var (n + 1))),
        ⟨s.assignment ++ [val, l * val], s.num_gates + 1, none⟩)

/-- Modelled from the spec: `is_nonzero_gadget(cs, var_l, var_r)` asserts
`var_l ≠ 0` with `var_r` as the witnessed inverse; its internal wires are
modelled as one multiplication of the two variables. -/
def is_nonzero_gadget (s : ProverCS F) (var_l var_r : Variable) : ProverCS F :=
  (s.multiply (LinearCombination.ofVariable var_l) (LinearCombination.ofVariable var_r)).2

/-- Modelled from the spec: `constrain_lc_with_scalar(lc, scalar)` records
the linear constraint `lc = scalar`; a linear constraint allocates no wire
and emits no gate, so the prover state is unchanged. -/
def constrain_lc_with_scalar (s : ProverCS F) (lc : LinearCombination F) (k : F) :
    ProverCS F :=
  let _ := lc
  let _ := k
  s

/-- poseidon.rs lines 165-174: `synthesize_cube_sbox`. -/
def synthesize_cube_sbox (s : ProverCS F) (input_var : LinearCombination F) (round_key : F) :
    Variable × ProverCS F :=
  let inp_plus_const := LinearCombination.addScalar input_var round_key
  let ((i, _, sqr), s1) := s.multiply inp_plus_const inp_plus_const
  let ((_, _, cube), s2) :=
    s1.multiply (LinearCombination.ofVariable sqr) (LinearCombination.ofVariable i)
  (cube, s2)

/-- poseidon.rs lines 177-187: `synthesize_quint_sbox`. -/
def synthesize_quint_sbox (s : ProverCS F) (input_var : LinearCombination F) (round_key : F) :
    Variable × ProverCS F :=
  let inp_plus_const := LinearCombination.addScalar input_var round_key
  let ((i, _, sqr), s1) := s.multiply inp_plus_const inp_plus_const
  let ((_, _, qr), s2) :=
    s1.multiply (LinearCombination.ofVariable sqr) (LinearCombination.ofVariable sqr)
  let ((_, _, qi), s3) :=
    s2.multiply (LinearCombination.ofVariable qr) (LinearCombination.ofVariable i)
  (qi, s3)

/-- poseidon.rs lines 190-210: `synthesize_inverse_sbox`, in prover form:
`evaluate_lc` yields the value, its inverse is witnessed, the non-zero gadget
runs on the pair and the gate output is pinned to 1. -/
def synthesize_inverse_sbox (s : ProverCS F) (input_var : LinearCombination F) (round_key : F) :
    Variable × ProverCS F :=
  let inp_plus_const := LinearCombination.addScalar input_var round_key
  let val_l := evalLC s.assignment inp_plus_const
  let val_r := val_l⁻¹
  let ((var_l, _), s1) := s.allocate_single val_l
  let ((var_r, var_o), s2) := s1.allocate_single val_r
  let s3 := is_nonzero_gadget s2 var_l var_r
  let s4 := constrain_lc_with_scalar s3
    (LinearCombination.ofVariable (var_o.getD Variable.one)) 1
  (var_r, s4)

/-- poseidon.rs lines 151-162: `synthesize_sbox` dispatch. -/
def SboxType.synthesize_sbox (sb : SboxType) (s : ProverCS F)
    (input_var : LinearCombination F) (round_key : F) : Variable × ProverCS F :=
  match sb with
  | SboxType.Cube => synthesize_cube_sbox s input_var round_key
  | SboxType.Inverse => synthesize_inverse_sbox s input_var round_key
  | SboxType.Quint => synthesize_quint_sbox s input_var round_key

/-- poseidon.rs lines 330-341: `apply_linear_layer` of the synthesizer;
`width` is the length of `sbox_outs`, additions and scalings are pure
linear-combination operations (no gates). -/
def apply_linear_layer (sbox_outs : List (LinearCombination F))
    (matrix_2 : List (List F)) : List (LinearCombination F) :=
  let width := sbox_outs.length
  (List.range width).map (fun i =>
    (List.range width).foldl
      (fun acc j =>
        LinearCombination.addLC acc
          (LinearCombination.scale ((matrix_2.getD j []).getD i 0)
            (sbox_outs.getD j LinearCombination.default)))
      LinearCombination.default)

/-- poseidon.rs lines 360-372, the S-box layer of a constrained full round:
every slot passes through the S-box gadget, the cursor advances once per
slot, and the constraint system threads through the gadget calls. -/
def synthesize_full_sbox_layer (sb : SboxType) (rks : List F) :
    List (LinearCombination F) → Nat → ProverCS F →
      List (LinearCombination F) × Nat × ProverCS F
  | [], o, s => ([], o, s)
  | lc :: rest, o, s =>
      let (v, s1) := sb.synthesize_sbox s lc (rks.getD o 0)
      let (outs, o2, s2) := synthesize_full_sbox_layer sb rks rest (o + 1) s1
      (LinearCombination.ofVariable v :: outs, o2, s2)

/-- poseidon.rs lines 352-385: one constrained full round (S-box layer on
every slot, then the linear layer on the fresh S-box output variables). -/
def full_round_constraints (params : PoseidonParams F) (sb : SboxType)
    (lcs : List (LinearCombination F)) (o : Nat) (s : ProverCS F) :
    List (LinearCombination F) × Nat × ProverCS F :=
  let (sbox_outputs, o1, s1) := synthesize_full_sbox_layer sb params.round_keys lcs o s
  (apply_linear_layer sbox_outputs params.MDS_matrix, o1, s1)

/-- poseidon.rs lines 352-385 iterated (`apply_full_rounds` of the
synthesizer). -/
def apply_full_rounds_constraints (num_rounds : Nat) (params : PoseidonParams F)
    (sb : SboxType) (lcs : List (LinearCombination F)) (o : Nat) (s : ProverCS F) :
    List (LinearCombination F) × Nat × ProverCS F :=
  match num_rounds with
  | 0 => (lcs, o, s)
  | n + 1 =>
      let (l1, o1, s1) := full_round_constraints params sb lcs o s
      apply_full_rounds_constraints n params sb l1 o1 s1

/-- poseidon.rs lines 402-420, the S-box layer of a constrained partial
round: slot `width-1` passes through the S-box gadget, every other slot
contributes `state[i] + round_keys[o]` as a pure linear combination; the
index `i` tracks the position in the original loop. -/
def synthesize_partial_sbox_layer (sb : SboxType) (rks : List F) (width : Nat) :
    Nat → List (LinearCombination F) → Nat → ProverCS F →
      List (LinearCombination F) × Nat × ProverCS F
  | _, [], o, s => ([], o, s)
  | i, lc :: rest, o, s =>
      if i = width - 1 then
        let (v, s1) := sb.synthesize_sbox s lc (rks.getD o 0)
        let (outs, o2, s2) := synthesize_partial_sbox_layer sb rks width (i + 1) rest (o + 1) s1
        (LinearCombination.ofVariable v :: outs, o2, s2)
      else
        let (outs, o2, s2) := synthesize_partial_sbox_layer sb rks width (i + 1) rest (o + 1) s
        (LinearCombination.addScalar lc (rks.getD o 0) :: outs, o2, s2)

/-- poseidon.rs lines 402-432: one constrained partial round; after the
linear layer every output linear combination is `simplify`-ed (line 430). -/
def partial_round_constraints (params : PoseidonParams F) (sb : SboxType)
    (lcs : List (LinearCombination F)) (o : Nat) (s : ProverCS F) :
    List (LinearCombination F) × Nat × ProverCS F :=
  let (sbox_outputs, o1, s1) :=
    synthesize_partial_sbox_layer sb params.round_keys params.width 0 lcs o s
  ((apply_linear_layer sbox_outputs params.MDS_matrix).map LinearCombination.simplify, o1, s1)

/-- poseidon.rs lines 402-432 iterated over the partial rounds. -/
def apply_partial_rounds_constraints (num_rounds : Nat) (params : PoseidonParams F)
    (sb : SboxType) (lcs : List (LinearCombination F)) (o : Nat) (s : ProverCS F) :
    List (LinearCombination F) × Nat × ProverCS F :=
  match num_rounds with
  | 0 => (lcs, o, s)
  | n + 1 =>
      let (l1, o1, s1) := partial_round_constraints params sb lcs o s
      apply_partial_rounds_constraints n params sb l1 o1 s1

/-- poseidon.rs lines 321-450 without the width assertion: the three
constrained phases chained on a key cursor starting at 0. -/
def Poseidon_permutation_constraints_body (lcs : List (LinearCombination F))
    (params : PoseidonParams F) (sb : SboxType) (s : ProverCS F) :
    List (LinearCombination F) × Nat × ProverCS F :=
  let (l1, o1, s1) :=
    apply_full_rounds_constraints params.full_rounds_beginning params sb lcs 0 s
  let (l2, o2, s2) := apply_partial_rounds_constraints params.partial_rounds params sb l1 o1 s1
  apply_full_rounds_constraints params.full_rounds_end params sb l2 o2 s2

/-- poseidon.rs lines 321-450: `Poseidon_permutation_constraints`. The width
assertion at line 328 is the guard; the returned pair is the output linear
combinations and the final prover state. -/
def Poseidon_permutation_constraints (lcs : List (LinearCombination F))
    (params : PoseidonParams F) (sb : SboxType) (s : ProverCS F) :
    Option (List (LinearCombination F) × ProverCS F) :=
  if lcs.length = params.width then
    let (outs, _, s1) := Poseidon_permutation_constraints_body lcs params sb s
    some (outs, s1)
  else none

/-! ### Infrastructure lemmas -/

/-- One more than the largest wire index a variable can touch (0 for the
constant wire): a variable is meaningful in assignments of at least this
length. -/
def Variable.bound : Variable → Nat
  | Variable.one => 0
  | Variable.var n => n + 1

/-- A linear combination only mentions wires below `n`. -/
def LCWf (n : Nat) (lc : LinearCombination F) : Prop :=
  ∀ p ∈ lc, Variable.bound p.1 ≤ n

/-- The prover state `t` is `s` with possibly more wires allocated; wires are
only ever appended. -/
def CSExtends (s t : ProverCS F) : Prop :=
  s.assignment <+: t.assignment

theorem CSExtends.refl (s : ProverCS F) : CSExtends s s :=
  List.prefix_refl _

theorem CSExtends.trans {s t u : ProverCS F} (h1 : CSExtends s t) (h2 : CSExtends t u) :
    CSExtends s u :=
  List.IsPrefix.trans h1 h2

theorem CSExtends.length_le {s t : ProverCS F} (h : CSExtends s t) :
    s.assignment.length ≤ t.assignment.length :=
  List.IsPrefix.length_le h

theorem LCWf.mono {n m : Nat} {lc : LinearCombination F} (h : LCWf n lc) (hnm : n ≤ m) :
    LCWf m lc :=
  fun p hp => le_trans (h p hp) hnm

theorem evalVar_mono {asg asg2 : List F} (h : asg <+: asg2) {v : Variable}
    (hv : v.bound ≤ asg.length) : evalVar asg2 v = evalVar asg v := by
  obtain ⟨t, ht⟩ := h
  cases v with
  | one => rfl
  | var n =>
      subst ht
      simp only [evalVar]
      exact List.getD_append _ _ _ _ (Nat.lt_of_succ_le hv)

theorem evalLC_mono {asg asg2 : List F} (h : asg <+: asg2) {lc : LinearCombination F}
    (hlc : LCWf asg.length lc) : evalLC asg2 lc = evalLC asg lc := by
  induction lc with
  | nil => rfl
  | cons p rest ih =>
      simp only [evalLC, List.map_cons, List.sum_cons] at *
      rw [evalVar_mono h (hlc p (by simp)), ih (fun q hq => hlc q (by simp [hq]))]

theorem evalLC_default (asg : List F) : evalLC asg (LinearCombination.default) = 0 := rfl

theorem evalLC_addLC (asg : List F) (a b : LinearCombination F) :
    evalLC asg (LinearCombination.addLC a b) = evalLC asg a + evalLC asg b := by
  simp [evalLC, LinearCombination.addLC]

theorem evalLC_addScalar (asg : List F) (lc : LinearCombination F) (k : F) :
    evalLC asg (LinearCombination.addScalar lc k) = evalLC asg lc + k := by
  simp [evalLC, LinearCombination.addScalar, evalVar]

theorem evalLC_scale (asg : List F) (k : F) (lc : LinearCombination F) :
    evalLC asg (LinearCombination.scale k lc) = evalLC asg lc * k := by
  induction lc with
  | nil => simp [evalLC, LinearCombination.scale]
  | cons p rest ih =>
      simp only [evalLC, LinearCombination.scale, List.map_cons, List.sum_cons] at *
      rw [ih]; ring

theorem evalLC_ofVariable (asg : List F) (v : Variable) :
    evalLC asg (LinearCombination.ofVariable v) = evalVar asg v := by
  simp [evalLC, LinearCombination.ofVariable]

theorem evalLC_addTerm (asg : List F) (acc : LinearCombination F) (v : Variable) (c : F) :
    evalLC asg (LinearCombination.addTerm acc v c) = evalLC asg acc + evalVar asg v * c := by
  induction acc with
  | nil => simp [LinearCombination.addTerm, evalLC]
  | cons p rest ih =>
      obtain ⟨v1, c1⟩ := p
      by_cases hv : v1 = v
      · subst hv
        simp [LinearCombination.addTerm, evalLC]
        ring
      · simp only [LinearCombination.addTerm, if_neg hv, evalLC, List.map_cons,
          List.sum_cons] at *
        rw [ih]; ring

theorem evalLC_simplify (asg : List F) (lc : LinearCombination F) :
    evalLC asg (LinearCombination.simplify lc) = evalLC asg lc := by
  suffices h : ∀ (l : List (Variable × F)) (acc : LinearCombination F),
      evalLC asg (l.foldl (fun a p => LinearCombination.addTerm a p.1 p.2) acc)
        = evalLC asg acc + evalLC asg l by
    simpa [LinearCombination.simplify, evalLC] using h lc []
  intro l
  induction l with
  | nil => intro acc; simp [evalLC]
  | cons p rest ih =>
      intro acc
      simp only [List.foldl_cons]
      rw [ih, evalLC_addTerm]
      simp only [evalLC, List.map_cons, List.sum_cons]
      ring

theorem LCWf_default {n : Nat} : LCWf (F := F) n LinearCombination.default := by
  intro p hp; cases hp

theorem LCWf_addLC {n : Nat} {a b : LinearCombination F} (ha : LCWf n a) (hb : LCWf n b) :
    LCWf n (LinearCombination.addLC a b) := by
  intro p hp
  rcases List.mem_append.1 hp with h | h
  · exact ha p h
  · exact hb p h

theorem LCWf_addScalar {n : Nat} {lc : LinearCombination F} (h : LCWf n lc) (k : F) :
    LCWf n (LinearCombination.addScalar lc k) := by
  intro p hp
  rcases List.mem_append.1 hp with h1 | h1
  · exact h p h1
  · simp only [List.mem_singleton] at h1
    subst h1
    simp [Variable.bound]

theorem LCWf_scale {n : Nat} (k : F) {lc : LinearCombination F} (h : LCWf n lc) :
    LCWf n (LinearCombination.scale k lc) := by
  intro p hp
  obtain ⟨q, hq, rfl⟩ := List.mem_map.1 hp
  exact h q hq

theorem LCWf_ofVariable {n : Nat} {v : Variable} (h : v.bound ≤ n) :
    LCWf (F := F) n (LinearCombination.ofVariable v) := by
  intro p hp
  simp only [LinearCombination.ofVariable, List.mem_singleton] at hp
  subst hp
  exact h

theorem LCWf_addTerm {n : Nat} {acc : LinearCombination F} {v : Variable} {c : F}
    (hacc : LCWf n acc) (hv : v.bound ≤ n) :
    LCWf n (LinearCombination.addTerm acc v c) := by
  induction acc with
  | nil =>
      intro p hp
      simp only [LinearCombination.addTerm, List.mem_singleton] at hp
      subst hp; exact hv
  | cons q rest ih =>
      obtain ⟨v1, c1⟩ := q
      have hrest : LCWf n rest := fun r hr => hacc r (by simp [hr])
      have hhead : Variable.bound v1 ≤ n := hacc (v1, c1) (by simp)
      by_cases h1 : v1 = v
      · simp only [LinearCombination.addTerm, if_pos h1]
        intro p hp
        rcases List.mem_cons.1 hp with h2 | h2
        · subst h2; exact hhead
        · exact hrest p h2
      · simp only [LinearCombination.addTerm, if_neg h1]
        intro p hp
        rcases List.mem_cons.1 hp with h2 | h2
        · subst h2; exact hhead
        · exact ih hrest p h2

theorem LCWf_simplify {n : Nat} {lc : LinearCombination F} (h : LCWf n lc) :
    LCWf n (LinearCombination.simplify lc) := by
  suffices hgen : ∀ (l : List (Variable × F)) (acc : LinearCombination F),
      LCWf n acc → LCWf n l →
      LCWf n (l.foldl (fun a p => LinearCombination.addTerm a p.1 p.2) acc) by
    exact hgen lc [] LCWf_default h
  intro l
  induction l with
  | nil => intro acc hacc _; exact hacc
  | cons p rest ih =>
      intro acc hacc hl
      simp only [List.foldl_cons]
      exact ih (LinearCombination.addTerm acc p.1 p.2)
        (LCWf_addTerm hacc (hl p (by simp)))
        (fun q hq => hl q (by simp [hq]))

theorem getD_append_add (l t : List F) (i : Nat) :
    (l ++ t).getD (l.length + i) 0 = t.getD i 0 := by
  rw [List.getD_append_right _ _ _ _ (Nat.le_add_right _ _)]
  simp

theorem foldl_add_eq_sum (f : Nat → F) (a : F) (n : Nat) :
    (List.range n).foldl (fun acc j => acc + f j) a = a + ∑ j ∈ Finset.range n, f j := by
  induction n generalizing a with
  | zero => simp
  | succ m ih =>
      rw [List.range_succ, List.foldl_append, ih, Finset.sum_range_succ]
      simp [add_assoc]

theorem getD_range_map {α : Type} (f : Nat → α) (d : α) {i w : Nat} (hi : i < w) :
    ((List.range w).map f).getD i d = f i := by
  rw [List.getD_eq_getElem _ _ (by simpa using hi)]
  simp

theorem getD_append_len (l t : List F) : (l ++ t).getD l.length 0 = t.getD 0 0 := by
  simpa using getD_append_add l t 0

/-! ### Correctness of the S-box gadgets

Each gadget extends the prover state, leaves no half-open multiplier pair
behind, and returns a wire whose value under the extended assignment is the
native S-box applied to the value of `input_var + round_key`. -/

theorem synthesize_cube_sbox_spec (s : ProverCS F) (lc : LinearCombination F) (k : F) :
    CSExtends s (synthesize_cube_sbox s lc k).2 ∧
    (synthesize_cube_sbox s lc k).2.pending = s.pending ∧
    Variable.bound (synthesize_cube_sbox s lc k).1
      ≤ (synthesize_cube_sbox s lc k).2.assignment.length ∧
    evalVar (synthesize_cube_sbox s lc k).2.assignment (synthesize_cube_sbox s lc k).1
      = SboxType.Cube.apply_sbox (evalLC s.assignment lc + k) := by
  obtain ⟨asg, g, pend⟩ := s
  simp only [synthesize_cube_sbox, ProverCS.multiply, evalLC_ofVariable, evalVar,
    CSExtends, Variable.bound, List.append_assoc, List.length_append, List.length_cons,
    List.length_nil, evalLC_addScalar, SboxType.apply_sbox]
  refine ⟨List.prefix_append _ _, by simp, by simp, ?_⟩
  rw [getD_append_add asg _ 2, getD_append_len]
  simp only [List.getD_cons_succ, List.getD_cons_zero]
  have hidx : asg.length + (0 + 1 + 1 + 1) + 2 = asg.length + 5 := by omega
  rw [hidx, getD_append_add]
  simp

theorem synthesize_quint_sbox_spec (s : ProverCS F) (lc : LinearCombination F) (k : F) :
    CSExtends s (synthesize_quint_sbox s lc k).2 ∧
    (synthesize_quint_sbox s lc k).2.pending = s.pending ∧
    Variable.bound (synthesize_quint_sbox s lc k).1
      ≤ (synthesize_quint_sbox s lc k).2.assignment.length ∧
    evalVar (synthesize_quint_sbox s lc k).2.assignment (synthesize_quint_sbox s lc k).1
      = SboxType.Quint.apply_sbox (evalLC s.assignment lc + k) := by
  obtain ⟨asg, g, pend⟩ := s
  simp only [synthesize_quint_sbox, ProverCS.multiply, evalLC_ofVariable, evalVar,
    CSExtends, Variable.bound, List.append_assoc, List.length_append, List.length_cons,
    List.length_nil, evalLC_addScalar, SboxType.apply_sbox]
  refine ⟨List.prefix_append _ _, by simp, by simp, ?_⟩
  rw [getD_append_add asg _ 2, getD_append_len]
  simp only [List.getD_cons_succ, List.getD_cons_zero]
  have hidx5 : asg.length + (0 + 1 + 1 + 1) + 2 = asg.length + 5 := by omega
  have hidx8 : asg.length + (0 + 1 + 1 + 1) + (0 + 1 + 1 + 1) + 2 = asg.length + 8 := by omega
  rw [hidx5, hidx8, getD_append_add, getD_append_add]
  simp

theorem synthesize_inverse_sbox_spec (s : ProverCS F) (lc : LinearCombination F) (k : F)
    (hpend : s.pending = none) :
    CSExtends s (synthesize_inverse_sbox s lc k).2 ∧
    (synthesize_inverse_sbox s lc k).2.pending = none ∧
    Variable.bound (synthesize_inverse_sbox s lc k).1
      ≤ (synthesize_inverse_sbox s lc k).2.assignment.length ∧
    evalVar (synthesize_inverse_sbox s lc k).2.assignment (synthesize_inverse_sbox s lc k).1
      = SboxType.Inverse.apply_sbox (evalLC s.assignment lc + k) := by
  obtain ⟨asg, g, pend⟩ := s
  simp only at hpend
  subst hpend
  simp only [synthesize_inverse_sbox, ProverCS.allocate_single, is_nonzero_gadget,
    constrain_lc_with_scalar, ProverCS.multiply, evalLC_ofVariable, evalVar,
    CSExtends, Variable.bound, List.append_assoc, List.length_append, List.length_cons,
    List.length_nil, evalLC_addScalar, SboxType.apply_sbox]
  refine ⟨List.prefix_append _ _, by simp, by simp, ?_⟩
  rw [getD_append_add asg _ 1]
  simp

/-- The unified S-box gadget correctness: state extension, no pending pair,
a well-bounded output wire, and the native S-box value on that wire. -/
theorem synthesize_sbox_spec (sb : SboxType) (s : ProverCS F) (lc : LinearCombination F)
    (k : F) (hpend : s.pending = none) :
    CSExtends s (sb.synthesize_sbox s lc k).2 ∧
    (sb.synthesize_sbox s lc k).2.pending = none ∧
    Variable.bound (sb.synthesize_sbox s lc k).1
      ≤ (sb.synthesize_sbox s lc k).2.assignment.length ∧
    evalVar (sb.synthesize_sbox s lc k).2.assignment (sb.synthesize_sbox s lc k).1
      = sb.apply_sbox (evalLC s.assignment lc + k) := by
  cases sb with
  | Cube =>
      obtain ⟨h1, h2, h3, h4⟩ := synthesize_cube_sbox_spec s lc k
      exact ⟨h1, by rw [SboxType.synthesize_sbox]; rw [h2, hpend], h3, h4⟩
  | Inverse =>
      obtain ⟨h1, h2, h3, h4⟩ := synthesize_inverse_sbox_spec s lc k hpend
      exact ⟨h1, h2, h3, h4⟩
  | Quint =>
      obtain ⟨h1, h2, h3, h4⟩ := synthesize_quint_sbox_spec s lc k
      exact ⟨h1, by rw [SboxType.synthesize_sbox]; rw [h2, hpend], h3, h4⟩

/-! ### Native layer facts -/

theorem sbox_full_layer_snd (sb : SboxType) (rks : List F) :
    ∀ (state : List F) (o : Nat), (sbox_full_layer sb rks state o).2 = o + state.length := by
  intro state
  induction state with
  | nil => intro o; simp [sbox_full_layer]
  | cons x rest ih =>
      intro o
      simp only [sbox_full_layer, ih (o + 1), List.length_cons]
      omega

theorem sbox_full_layer_length (sb : SboxType) (rks : List F) :
    ∀ (state : List F) (o : Nat), (sbox_full_layer sb rks state o).1.length = state.length := by
  intro state
  induction state with
  | nil => intro o; simp [sbox_full_layer]
  | cons x rest ih => intro o; simp [sbox_full_layer, ih (o + 1)]

theorem sbox_full_layer_getD (sb : SboxType) (rks : List F) :
    ∀ (state : List F) (o i : Nat), i < state.length →
      (sbox_full_layer sb rks state o).1.getD i 0
        = sb.apply_sbox (state.getD i 0 + rks.getD (o + i) 0) := by
  intro state
  induction state with
  | nil => intro o i hi; simp at hi
  | cons x rest ih =>
      intro o i hi
      cases i with
      | zero => simp [sbox_full_layer]
      | succ m =>
          simp only [sbox_full_layer, List.getD_cons_succ]
          rw [ih (o + 1) m (by simpa using hi)]
          have harith : o + 1 + m = o + (m + 1) := by omega
          rw [harith]

theorem add_round_keys_layer_snd (rks : List F) :
    ∀ (state : List F) (o : Nat), (add_round_keys_layer rks state o).2 = o + state.length := by
  intro state
  induction state with
  | nil => intro o; simp [add_round_keys_layer]
  | cons x rest ih =>
      intro o
      simp only [add_round_keys_layer, ih (o + 1), List.length_cons]
      omega

theorem add_round_keys_layer_length (rks : List F) :
    ∀ (state : List F) (o : Nat),
      (add_round_keys_layer rks state o).1.length = state.length := by
  intro state
  induction state with
  | nil => intro o; simp [add_round_keys_layer]
  | cons x rest ih => intro o; simp [add_round_keys_layer, ih (o + 1)]

theorem add_round_keys_layer_getD (rks : List F) :
    ∀ (state : List F) (o i : Nat), i < state.length →
      (add_round_keys_layer rks state o).1.getD i 0
        = state.getD i 0 + rks.getD (o + i) 0 := by
  intro state
  induction state with
  | nil => intro o i hi; simp at hi
  | cons x rest ih =>
      intro o i hi
      cases i with
      | zero => simp [add_round_keys_layer]
      | succ m =>
          simp only [add_round_keys_layer, List.getD_cons_succ]
          rw [ih (o + 1) m (by simpa using hi)]
          have harith : o + 1 + m = o + (m + 1) := by omega
          rw [harith]

theorem linear_layer_length (M : List (List F)) (width : Nat) (state : List F) :
    (linear_layer M width state).length = width := by
  simp [linear_layer]

theorem linear_layer_getD (M : List (List F)) (width : Nat) (state : List F) {i : Nat}
    (hi : i < width) :
    (linear_layer M width state).getD i 0
      = ∑ j ∈ Finset.range width, state.getD j 0 * (M.getD j []).getD i 0 := by
  simp only [linear_layer]
  rw [getD_range_map _ _ hi, foldl_add_eq_sum]
  simp

/-! ### Constrained linear layer facts -/

theorem evalLC_getD_map (asg : List F) :
    ∀ (outs : List (LinearCombination F)) (j : Nat),
      (outs.map (evalLC asg)).getD j 0
        = evalLC asg (outs.getD j LinearCombination.default) := by
  intro outs
  induction outs with
  | nil => intro j; simp [evalLC_default]
  | cons lc rest ih =>
      intro j
      cases j with
      | zero => simp
      | succ m => simpa using ih m

theorem apply_linear_layer_length (sbox_outs : List (LinearCombination F))
    (matrix_2 : List (List F)) :
    (apply_linear_layer sbox_outs matrix_2).length = sbox_outs.length := by
  simp [apply_linear_layer]

theorem evalLC_linear_foldl (asg : List F) (outs : List (LinearCombination F))
    (m : Nat → F) :
    ∀ (l : List Nat) (acc : LinearCombination F),
      evalLC asg (l.foldl
          (fun acc j =>
            LinearCombination.addLC acc
              (LinearCombination.scale (m j) (outs.getD j LinearCombination.default)))
          acc)
        = l.foldl
            (fun acc j => acc + (outs.map (evalLC asg)).getD j 0 * m j)
            (evalLC asg acc) := by
  intro l
  induction l with
  | nil => intro acc; rfl
  | cons j rest ih =>
      intro acc
      simp only [List.foldl_cons]
      rw [ih, evalLC_addLC, evalLC_scale, evalLC_getD_map]

theorem apply_linear_layer_eval (asg : List F) (outs : List (LinearCombination F))
    (matrix_2 : List (List F)) :
    (apply_linear_layer outs matrix_2).map (evalLC asg)
      = linear_layer matrix_2 outs.length (outs.map (evalLC asg)) := by
  simp only [apply_linear_layer, linear_layer, List.map_map]
  refine List.map_congr_left ?_
  intro i hi
  simp only [Function.comp_apply]
  rw [evalLC_linear_foldl, evalLC_default]

theorem apply_linear_layer_wf {n : Nat} {outs : List (LinearCombination F)}
    (matrix_2 : List (List F)) (hwf : ∀ lc ∈ outs, LCWf n lc) :
    ∀ lc ∈ apply_linear_layer outs matrix_2, LCWf n lc := by
  intro lc hlc
  simp only [apply_linear_layer, List.mem_map] at hlc
  obtain ⟨i, hi, rfl⟩ := hlc
  have hfold : ∀ (l : List Nat) (acc : LinearCombination F), LCWf n acc →
      LCWf n (l.foldl
        (fun acc j =>
          LinearCombination.addLC acc
            (LinearCombination.scale ((matrix_2.getD j []).getD i 0)
              (outs.getD j LinearCombination.default)))
        acc) := by
    intro l
    induction l with
    | nil => intro acc hacc; exact hacc
    | cons j rest ih =>
        intro acc hacc
        simp only [List.foldl_cons]
        refine ih _ (LCWf_addLC hacc (LCWf_scale _ ?_))
        by_cases hj : j < outs.length
        · refine hwf _ ?_
          rw [List.getD_eq_getElem _ _ hj]
          exact List.getElem_mem hj
        · rw [List.getD_eq_default _ _ (Nat.le_of_not_lt hj)]
          exact LCWf_default
  exact hfold _ _ LCWf_default

/-! ### The constrained full S-box layer refines the native one -/

theorem sbox_full_layer_cons (sb : SboxType) (rks : List F) (x : F) (rest : List F) (o : Nat) :
    sbox_full_layer sb rks (x :: rest) o
      = (sb.apply_sbox (x + rks.getD o 0) :: (sbox_full_layer sb rks rest (o + 1)).1,
         (sbox_full_layer sb rks rest (o + 1)).2) := by
  rcases h : sbox_full_layer sb rks rest (o + 1) with ⟨ys, o2⟩
  simp [sbox_full_layer, h]

theorem add_round_keys_layer_cons (rks : List F) (x : F) (rest : List F) (o : Nat) :
    add_round_keys_layer rks (x :: rest) o
      = ((x + rks.getD o 0) :: (add_round_keys_layer rks rest (o + 1)).1,
         (add_round_keys_layer rks rest (o + 1)).2) := by
  rcases h : add_round_keys_layer rks rest (o + 1) with ⟨ys, o2⟩
  simp [add_round_keys_layer, h]

theorem synthesize_full_sbox_layer_spec (sb : SboxType) (rks : List F) :
    ∀ (lcs : List (LinearCombination F)) (o : Nat) (s : ProverCS F),
      s.pending = none → (∀ lc ∈ lcs, LCWf s.assignment.length lc) →
      CSExtends s (synthesize_full_sbox_layer sb rks lcs o s).2.2 ∧
      (synthesize_full_sbox_layer sb rks lcs o s).2.2.pending = none ∧
      (synthesize_full_sbox_layer sb rks lcs o s).2.1 = o + lcs.length ∧
      (∀ lc ∈ (synthesize_full_sbox_layer sb rks lcs o s).1,
        LCWf (synthesize_full_sbox_layer sb rks lcs o s).2.2.assignment.length lc) ∧
      (synthesize_full_sbox_layer sb rks lcs o s).1.map
          (evalLC (synthesize_full_sbox_layer sb rks lcs o s).2.2.assignment)
        = (sbox_full_layer sb rks (lcs.map (evalLC s.assignment)) o).1 := by
  intro lcs
  induction lcs with
  | nil =>
      intro o s hpend hwf
      exact ⟨CSExtends.refl s, hpend, by simp [synthesize_full_sbox_layer],
        by simp [synthesize_full_sbox_layer], by simp [synthesize_full_sbox_layer,
          sbox_full_layer]⟩
  | cons lc rest ih =>
      intro o s hpend hwf
      obtain ⟨hext1, hpend1, hbound1, hval1⟩ :=
        synthesize_sbox_spec sb s lc (rks.getD o 0) hpend
      rcases hsb : sb.synthesize_sbox s lc (rks.getD o 0) with ⟨v, s1⟩
      rw [hsb] at hext1 hpend1 hbound1 hval1
      dsimp only at hext1 hpend1 hbound1 hval1
      have hwf1 : ∀ lc2 ∈ rest, LCWf s1.assignment.length lc2 :=
        fun lc2 h2 => (hwf lc2 (by simp [h2])).mono hext1.length_le
      obtain ⟨hext2, hpend2, hcur2, hwf2, hmap2⟩ := ih (o + 1) s1 hpend1 hwf1
      rcases hrec : synthesize_full_sbox_layer sb rks rest (o + 1) s1 with ⟨outs, o2, s2⟩
      rw [hrec] at hext2 hpend2 hcur2 hwf2 hmap2
      dsimp only at hext2 hpend2 hcur2 hwf2 hmap2
      simp only [synthesize_full_sbox_layer, hsb, hrec]
      refine ⟨hext1.trans hext2, hpend2, by simp only [List.length_cons]; omega, ?_, ?_⟩
      · intro lc2 h2
        rcases List.mem_cons.1 h2 with h3 | h3
        · subst h3
          exact LCWf_ofVariable (le_trans hbound1 hext2.length_le)
        · exact hwf2 lc2 h3
      · simp only [List.map_cons, sbox_full_layer_cons, List.cons.injEq]
        refine ⟨?_, ?_⟩
        · rw [evalLC_ofVariable, evalVar_mono hext2 hbound1, hval1]
        · rw [hmap2]
          have hrm : rest.map (evalLC s1.assignment) = rest.map (evalLC s.assignment) :=
            List.map_congr_left (fun lc2 h2 =>
              evalLC_mono hext1 (hwf lc2 (by simp [h2])))
          rw [hrm]

/-! ### Round-level equations (the pair-destructuring lets, made explicit) -/

theorem full_round_eq (params : PoseidonParams F) (sb : SboxType) (state : List F) (o : Nat) :
    full_round params sb state o
      = (linear_layer params.MDS_matrix params.width
           (sbox_full_layer sb params.round_keys state o).1,
         (sbox_full_layer sb params.round_keys state o).2) := by
  rcases h : sbox_full_layer sb params.round_keys state o with ⟨ys, o2⟩
  simp [full_round, h]

theorem partial_round_eq (params : PoseidonParams F) (sb : SboxType) (state : List F)
    (o : Nat) :
    partial_round params sb state o
      = (linear_layer params.MDS_matrix params.width
           (((add_round_keys_layer params.round_keys state o).1).set (params.width - 1)
             (sb.apply_sbox
               (((add_round_keys_layer params.round_keys state o).1).getD
                 (params.width - 1) 0))),
         (add_round_keys_layer params.round_keys state o).2) := by
  rcases h : add_round_keys_layer params.round_keys state o with ⟨ys, o2⟩
  simp [partial_round, h]

theorem apply_full_rounds_succ (n : Nat) (params : PoseidonParams F) (sb : SboxType)
    (state : List F) (o : Nat) :
    apply_full_rounds (n + 1) params sb state o
      = apply_full_rounds n params sb (full_round params sb state o).1
          (full_round params sb state o).2 := by
  rcases h : full_round params sb state o with ⟨s1, o1⟩
  simp [apply_full_rounds, h]

theorem apply_partial_rounds_succ (n : Nat) (params : PoseidonParams F) (sb : SboxType)
    (state : List F) (o : Nat) :
    apply_partial_rounds (n + 1) params sb state o
      = apply_partial_rounds n params sb (partial_round params sb state o).1
          (partial_round params sb state o).2 := by
  rcases h : partial_round params sb state o with ⟨s1, o1⟩
  simp [apply_partial_rounds, h]

theorem full_round_constraints_eq (params : PoseidonParams F) (sb : SboxType)
    (lcs : List (LinearCombination F)) (o : Nat) (s : ProverCS F) :
    full_round_constraints params sb lcs o s
      = (apply_linear_layer (synthesize_full_sbox_layer sb params.round_keys lcs o s).1
           params.MDS_matrix,
         (synthesize_full_sbox_layer sb params.round_keys lcs o s).2.1,
         (synthesize_full_sbox_layer sb params.round_keys lcs o s).2.2) := by
  rcases h : synthesize_full_sbox_layer sb params.round_keys lcs o s with ⟨outs, o1, s1⟩
  simp [full_round_constraints, h]

theorem partial_round_constraints_eq (params : PoseidonParams F) (sb : SboxType)
    (lcs : List (LinearCombination F)) (o : Nat) (s : ProverCS F) :
    partial_round_constraints params sb lcs o s
      = ((apply_linear_layer
            (synthesize_partial_sbox_layer sb params.round_keys params.width 0 lcs o s).1
            params.MDS_matrix).map LinearCombination.simplify,
         (synthesize_partial_sbox_layer sb params.round_keys params.width 0 lcs o s).2.1,
         (synthesize_partial_sbox_layer sb params.round_keys params.width 0 lcs o s).2.2) := by
  rcases h : synthesize_partial_sbox_layer sb params.round_keys params.width 0 lcs o s
    with ⟨outs, o1, s1⟩
  simp [partial_round_constraints, h]

theorem apply_full_rounds_constraints_succ (n : Nat) (params : PoseidonParams F)
    (sb : SboxType) (lcs : List (LinearCombination F)) (o : Nat) (s : ProverCS F) :
    apply_full_rounds_constraints (n + 1) params sb lcs o s
      = apply_full_rounds_constraints n params sb (full_round_constraints params sb lcs o s).1
          (full_round_constraints params sb lcs o s).2.1
          (full_round_constraints params sb lcs o s).2.2 := by
  rcases h : full_round_constraints params sb lcs o s with ⟨l1, o1, s1⟩
  simp [apply_full_rounds_constraints, h]

theorem apply_partial_rounds_constraints_succ (n : Nat) (params : PoseidonParams F)
    (sb : SboxType) (lcs : List (LinearCombination F)) (o : Nat) (s : ProverCS F) :
    apply_partial_rounds_constraints (n + 1) params sb lcs o s
      = apply_partial_rounds_constraints n params sb
          (partial_round_constraints params sb lcs o s).1
          (partial_round_constraints params sb lcs o s).2.1
          (partial_round_constraints params sb lcs o s).2.2 := by
  rcases h : partial_round_constraints params sb lcs o s with ⟨l1, o1, s1⟩
  simp [apply_partial_rounds_constraints, h]

/-! ### The constrained full round refines the native full round -/

theorem full_round_constraints_spec (params : PoseidonParams F) (sb : SboxType)
    (lcs : List (LinearCombination F)) (o : Nat) (s : ProverCS F)
    (hlen : lcs.length = params.width) (hpend : s.pending = none)
    (hwf : ∀ lc ∈ lcs, LCWf s.assignment.length lc) :
    CSExtends s (full_round_constraints params sb lcs o s).2.2 ∧
    (full_round_constraints params sb lcs o s).2.2.pending = none ∧
    (full_round_constraints params sb lcs o s).1.length = params.width ∧
    (∀ lc ∈ (full_round_constraints params sb lcs o s).1,
      LCWf (full_round_constraints params sb lcs o s).2.2.assignment.length lc) ∧
    (full_round_constraints params sb lcs o s).2.1
      = (full_round params sb (lcs.map (evalLC s.assignment)) o).2 ∧
    (full_round_constraints params sb lcs o s).1.map
        (evalLC (full_round_constraints params sb lcs o s).2.2.assignment)
      = (full_round params sb (lcs.map (evalLC s.assignment)) o).1 := by
  obtain ⟨hext, hpend1, hcur, hwf1, hmap⟩ :=
    synthesize_full_sbox_layer_spec sb params.round_keys lcs o s hpend hwf
  have houtslen : (synthesize_full_sbox_layer sb params.round_keys lcs o s).1.length
      = params.width := by
    have h1 := congrArg List.length hmap
    rw [List.length_map, sbox_full_layer_length, List.length_map] at h1
    rw [h1, hlen]
  rw [full_round_constraints_eq, full_round_eq]
  refine ⟨hext, hpend1, ?_, ?_, ?_, ?_⟩
  · rw [apply_linear_layer_length, houtslen]
  · exact fun lc hlc => apply_linear_layer_wf _ hwf1 lc hlc
  · rw [hcur, sbox_full_layer_snd, List.length_map, hlen]
  · rw [apply_linear_layer_eval, houtslen, hmap]

/-! ### The constrained full-round phase refines the native phase -/

theorem apply_full_rounds_constraints_spec (params : PoseidonParams F) (sb : SboxType) :
    ∀ (n : Nat) (lcs : List (LinearCombination F)) (o : Nat) (s : ProverCS F),
      lcs.length = params.width → s.pending = none →
      (∀ lc ∈ lcs, LCWf s.assignment.length lc) →
      CSExtends s (apply_full_rounds_constraints n params sb lcs o s).2.2 ∧
      (apply_full_rounds_constraints n params sb lcs o s).2.2.pending = none ∧
      (apply_full_rounds_constraints n params sb lcs o s).1.length = params.width ∧
      (∀ lc ∈ (apply_full_rounds_constraints n params sb lcs o s).1,
        LCWf (apply_full_rounds_constraints n params sb lcs o s).2.2.assignment.length lc) ∧
      (apply_full_rounds_constraints n params sb lcs o s).2.1
        = (apply_full_rounds n params sb (lcs.map (evalLC s.assignment)) o).2 ∧
      (apply_full_rounds_constraints n params sb lcs o s).1.map
          (evalLC (apply_full_rounds_constraints n params sb lcs o s).2.2.assignment)
        = (apply_full_rounds n params sb (lcs.map (evalLC s.assignment)) o).1 := by
  intro n
  induction n with
  | zero =>
      intro lcs o s hlen hpend hwf
      exact ⟨CSExtends.refl s, hpend, hlen, by simpa [apply_full_rounds_constraints] using hwf,
        by simp [apply_full_rounds_constraints, apply_full_rounds],
        by simp [apply_full_rounds_constraints, apply_full_rounds]⟩
  | succ m ih =>
      intro lcs o s hlen hpend hwf
      obtain ⟨hext1, hpend1, hlen1, hwf1, hcur1, hmap1⟩ :=
        full_round_constraints_spec params sb lcs o s hlen hpend hwf
      obtain ⟨hext2, hpend2, hlen2, hwf2, hcur2, hmap2⟩ :=
        ih (full_round_constraints params sb lcs o s).1
          (full_round_constraints params sb lcs o s).2.1
          (full_round_constraints params sb lcs o s).2.2 hlen1 hpend1 hwf1
      rw [apply_full_rounds_constraints_succ, apply_full_rounds_succ, ← hcur1, ← hmap1]
      exact ⟨hext1.trans hext2, hpend2, hlen2, hwf2, hcur2, hmap2⟩

/-! ### The constrained partial S-box layer refines the native key-add and
single-S-box step -/

theorem synthesize_partial_sbox_layer_nil (sb : SboxType) (rks : List F) (width i o : Nat)
    (s : ProverCS F) :
    synthesize_partial_sbox_layer sb rks width i [] o s = ([], o, s) := by
  simp [synthesize_partial_sbox_layer]

theorem add_round_keys_layer_nil (rks : List F) (o : Nat) :
    add_round_keys_layer rks [] o = ([], o) := rfl

theorem synthesize_partial_sbox_layer_cons_sbox (sb : SboxType) (rks : List F)
    (width i : Nat) (lc : LinearCombination F) (rest : List (LinearCombination F))
    (o : Nat) (s : ProverCS F) (heq : i = width - 1) :
    synthesize_partial_sbox_layer sb rks width i (lc :: rest) o s
      = (LinearCombination.ofVariable (sb.synthesize_sbox s lc (rks.getD o 0)).1 ::
           (synthesize_partial_sbox_layer sb rks width (i + 1) rest (o + 1)
             (sb.synthesize_sbox s lc (rks.getD o 0)).2).1,
         (synthesize_partial_sbox_layer sb rks width (i + 1) rest (o + 1)
           (sb.synthesize_sbox s lc (rks.getD o 0)).2).2.1,
         (synthesize_partial_sbox_layer sb rks width (i + 1) rest (o + 1)
           (sb.synthesize_sbox s lc (rks.getD o 0)).2).2.2) := by
  rcases hsb : sb.synthesize_sbox s lc (rks.getD o 0) with ⟨v, s1⟩
  rcases h : synthesize_partial_sbox_layer sb rks width (i + 1) rest (o + 1) s1
    with ⟨outs, o2, s2⟩
  simp only [synthesize_partial_sbox_layer, if_pos heq, hsb, h]

theorem synthesize_partial_sbox_layer_cons_skip (sb : SboxType) (rks : List F)
    (width i : Nat) (lc : LinearCombination F) (rest : List (LinearCombination F))
    (o : Nat) (s : ProverCS F) (hne : ¬ i = width - 1) :
    synthesize_partial_sbox_layer sb rks width i (lc :: rest) o s
      = (LinearCombination.addScalar lc (rks.getD o 0) ::
           (synthesize_partial_sbox_layer sb rks width (i + 1) rest (o + 1) s).1,
         (synthesize_partial_sbox_layer sb rks width (i + 1) rest (o + 1) s).2.1,
         (synthesize_partial_sbox_layer sb rks width (i + 1) rest (o + 1) s).2.2) := by
  rcases h : synthesize_partial_sbox_layer sb rks width (i + 1) rest (o + 1) s
    with ⟨outs, o2, s2⟩
  simp only [synthesize_partial_sbox_layer, if_neg hne, h]

theorem synthesize_partial_sbox_layer_spec (sb : SboxType) (rks : List F) (width : Nat) :
    ∀ (lcs : List (LinearCombination F)) (i o : Nat) (s : ProverCS F),
      i + lcs.length = width → s.pending = none →
      (∀ lc ∈ lcs, LCWf s.assignment.length lc) →
      CSExtends s (synthesize_partial_sbox_layer sb rks width i lcs o s).2.2 ∧
      (synthesize_partial_sbox_layer sb rks width i lcs o s).2.2.pending = none ∧
      (synthesize_partial_sbox_layer sb rks width i lcs o s).2.1 = o + lcs.length ∧
      (∀ lc ∈ (synthesize_partial_sbox_layer sb rks width i lcs o s).1,
        LCWf (synthesize_partial_sbox_layer sb rks width i lcs o s).2.2.assignment.length lc) ∧
      (synthesize_partial_sbox_layer sb rks width i lcs o s).1.length = lcs.length ∧
      (synthesize_partial_sbox_layer sb rks width i lcs o s).1.map
          (evalLC (synthesize_partial_sbox_layer sb rks width i lcs o s).2.2.assignment)
        = ((add_round_keys_layer rks (lcs.map (evalLC s.assignment)) o).1).set
            (lcs.length - 1)
            (sb.apply_sbox
              (((add_round_keys_layer rks (lcs.map (evalLC s.assignment)) o).1).getD
                (lcs.length - 1) 0)) := by
  intro lcs
  induction lcs with
  | nil =>
      intro i o s hi hpend hwf
      rw [synthesize_partial_sbox_layer_nil]
      exact ⟨CSExtends.refl s, hpend, by simp, by simp, by simp,
        by simp [add_round_keys_layer]⟩
  | cons lc rest ih =>
      rcases rest with _ | ⟨r, rs⟩
      · -- the singleton tail: this is slot `width - 1`, the S-box slot
        intro i o s hi hpend hwf
        have hieq : i = width - 1 := by simp at hi; omega
        obtain ⟨hext1, hpend1, hbound1, hval1⟩ :=
          synthesize_sbox_spec sb s lc (rks.getD o 0) hpend
        rw [synthesize_partial_sbox_layer_cons_sbox sb rks width i lc [] o s hieq,
          synthesize_partial_sbox_layer_nil]
        dsimp only
        refine ⟨hext1, hpend1, by simp, ?_, by simp, ?_⟩
        · intro lc2 h2
          simp only [List.mem_singleton] at h2
          subst h2
          exact LCWf_ofVariable hbound1
        · simp only [List.map_cons, List.map_nil]
          rw [add_round_keys_layer_cons]
          simp only [add_round_keys_layer_nil, List.length_cons, List.length_nil,
            List.set_cons_zero, List.getD_cons_zero, evalLC_ofVariable]
          rw [hval1]
          simp
      · -- a non-final slot: pure linear-combination update, no gadget call
        intro i o s hi hpend hwf
        have hne : ¬ i = width - 1 := by simp at hi; omega
        obtain ⟨hext2, hpend2, hcur2, hwf2, hlen2, hmap2⟩ :=
          ih (i + 1) (o + 1) s (by simp at hi ⊢; omega) hpend
            (fun lc2 h2 => hwf lc2 (by simp [h2]))
        rw [synthesize_partial_sbox_layer_cons_skip sb rks width i lc (r :: rs) o s hne]
        dsimp only
        have hwfhead : LCWf s.assignment.length
            (LinearCombination.addScalar lc (rks.getD o 0)) :=
          LCWf_addScalar (hwf lc (by simp)) _
        refine ⟨hext2, hpend2, by simp only [List.length_cons, hcur2]; omega, ?_, by
          simp only [List.length_cons, hlen2], ?_⟩
        · intro lc2 h2
          rcases List.mem_cons.1 h2 with h3 | h3
          · subst h3
            exact hwfhead.mono hext2.length_le
          · exact hwf2 lc2 h3
        · simp only [List.map_cons, add_round_keys_layer_cons, List.length_cons]
          have hsetidx : rs.length + 1 + 1 - 1 = (rs.length + 1 - 1) + 1 := by omega
          rw [hsetidx, List.set_cons_succ, List.getD_cons_succ, List.cons.injEq]
          refine ⟨?_, ?_⟩
          · rw [evalLC_mono hext2 hwfhead, evalLC_addScalar]
          · rw [hmap2]
            simp only [List.map_cons, List.length_cons, add_round_keys_layer_cons]

/-! ### The constrained partial round refines the native partial round -/

theorem map_simplify_eval (asg : List F) (l : List (LinearCombination F)) :
    (l.map LinearCombination.simplify).map (evalLC asg) = l.map (evalLC asg) := by
  simp only [List.map_map]
  exact List.map_congr_left (fun lc _ => evalLC_simplify asg lc)

theorem partial_round_constraints_spec (params : PoseidonParams F) (sb : SboxType)
    (lcs : List (LinearCombination F)) (o : Nat) (s : ProverCS F)
    (hlen : lcs.length = params.width) (hpend : s.pending = none)
    (hwf : ∀ lc ∈ lcs, LCWf s.assignment.length lc) :
    CSExtends s (partial_round_constraints params sb lcs o s).2.2 ∧
    (partial_round_constraints params sb lcs o s).2.2.pending = none ∧
    (partial_round_constraints params sb lcs o s).1.length = params.width ∧
    (∀ lc ∈ (partial_round_constraints params sb lcs o s).1,
      LCWf (partial_round_constraints params sb lcs o s).2.2.assignment.length lc) ∧
    (partial_round_constraints params sb lcs o s).2.1
      = (partial_round params sb (lcs.map (evalLC s.assignment)) o).2 ∧
    (partial_round_constraints params sb lcs o s).1.map
        (evalLC (partial_round_constraints params sb lcs o s).2.2.assignment)
      = (partial_round params sb (lcs.map (evalLC s.assignment)) o).1 := by
  obtain ⟨hext, hpend1, hcur, hwf1, hlen1, hmap⟩ :=
    synthesize_partial_sbox_layer_spec sb params.round_keys params.width lcs 0 o s
      (by omega) hpend hwf
  have houtslen : (synthesize_partial_sbox_layer sb params.round_keys params.width 0
      lcs o s).1.length = params.width := by rw [hlen1, hlen]
  rw [partial_round_constraints_eq, partial_round_eq]
  refine ⟨hext, hpend1, ?_, ?_, ?_, ?_⟩
  · rw [List.length_map, apply_linear_layer_length, houtslen]
  · intro lc hlc
    obtain ⟨lc0, hlc0, rfl⟩ := List.mem_map.1 hlc
    exact LCWf_simplify (apply_linear_layer_wf _ hwf1 lc0 hlc0)
  · rw [hcur, add_round_keys_layer_snd, List.length_map, hlen]
  · rw [map_simplify_eval, apply_linear_layer_eval, houtslen, hmap, hlen]

/-! ### The constrained partial phase refines the native phase -/

theorem apply_partial_rounds_constraints_spec (params : PoseidonParams F) (sb : SboxType) :
    ∀ (n : Nat) (lcs : List (LinearCombination F)) (o : Nat) (s : ProverCS F),
      lcs.length = params.width → s.pending = none →
      (∀ lc ∈ lcs, LCWf s.assignment.length lc) →
      CSExtends s (apply_partial_rounds_constraints n params sb lcs o s).2.2 ∧
      (apply_partial_rounds_constraints n params sb lcs o s).2.2.pending = none ∧
      (apply_partial_rounds_constraints n params sb lcs o s).1.length = params.width ∧
      (∀ lc ∈ (apply_partial_rounds_constraints n params sb lcs o s).1,
        LCWf (apply_partial_rounds_constraints n params sb lcs o s).2.2.assignment.length lc) ∧
      (apply_partial_rounds_constraints n params sb lcs o s).2.1
        = (apply_partial_rounds n params sb (lcs.map (evalLC s.assignment)) o).2 ∧
      (apply_partial_rounds_constraints n params sb lcs o s).1.map
          (evalLC (apply_partial_rounds_constraints n params sb lcs o s).2.2.assignment)
        = (apply_partial_rounds n params sb (lcs.map (evalLC s.assignment)) o).1 := by
  intro n
  induction n with
  | zero =>
      intro lcs o s hlen hpend hwf
      exact ⟨CSExtends.refl s, hpend, hlen,
        by simpa [apply_partial_rounds_constraints] using hwf,
        by simp [apply_partial_rounds_constraints, apply_partial_rounds],
        by simp [apply_partial_rounds_constraints, apply_partial_rounds]⟩
  | succ m ih =>
      intro lcs o s hlen hpend hwf
      obtain ⟨hext1, hpend1, hlen1, hwf1, hcur1, hmap1⟩ :=
        partial_round_constraints_spec params sb lcs o s hlen hpend hwf
      obtain ⟨hext2, hpend2, hlen2, hwf2, hcur2, hmap2⟩ :=
        ih (partial_round_constraints params sb lcs o s).1
          (partial_round_constraints params sb lcs o s).2.1
          (partial_round_constraints params sb lcs o s).2.2 hlen1 hpend1 hwf1
      rw [apply_partial_rounds_constraints_succ, apply_partial_rounds_succ, ← hcur1,
        ← hmap1]
      exact ⟨hext1.trans hext2, hpend2, hlen2, hwf2, hcur2, hmap2⟩

/-! ### The whole constrained permutation refines the native permutation -/

theorem Poseidon_permutation_body_eq (input : List F) (params : PoseidonParams F)
    (sb : SboxType) :
    Poseidon_permutation_body input params sb
      = apply_full_rounds params.full_rounds_end params sb
          (apply_partial_rounds params.partial_rounds params sb
            (apply_full_rounds params.full_rounds_beginning params sb input 0).1
            (apply_full_rounds params.full_rounds_beginning params sb input 0).2).1
          (apply_partial_rounds params.partial_rounds params sb
            (apply_full_rounds params.full_rounds_beginning params sb input 0).1
            (apply_full_rounds params.full_rounds_beginning params sb input 0).2).2 := by
  rcases h1 : apply_full_rounds params.full_rounds_beginning params sb input 0 with ⟨s1, o1⟩
  rcases h2 : apply_partial_rounds params.partial_rounds params sb s1 o1 with ⟨s2, o2⟩
  simp [Poseidon_permutation_body, h1, h2]

theorem Poseidon_permutation_constraints_body_eq (lcs : List (LinearCombination F))
    (params : PoseidonParams F) (sb : SboxType) (s : ProverCS F) :
    Poseidon_permutation_constraints_body lcs params sb s
      = apply_full_rounds_constraints params.full_rounds_end params sb
          (apply_partial_rounds_constraints params.partial_rounds params sb
            (apply_full_rounds_constraints params.full_rounds_beginning params sb lcs 0 s).1
            (apply_full_rounds_constraints params.full_rounds_beginning params sb
              lcs 0 s).2.1
            (apply_full_rounds_constraints params.full_rounds_beginning params sb
              lcs 0 s).2.2).1
          (apply_partial_rounds_constraints params.partial_rounds params sb
            (apply_full_rounds_constraints params.full_rounds_beginning params sb lcs 0 s).1
            (apply_full_rounds_constraints params.full_rounds_beginning params sb
              lcs 0 s).2.1
            (apply_full_rounds_constraints params.full_rounds_beginning params sb
              lcs 0 s).2.2).2.1
          (apply_partial_rounds_constraints params.partial_rounds params sb
            (apply_full_rounds_constraints params.full_rounds_beginning params sb lcs 0 s).1
            (apply_full_rounds_constraints params.full_rounds_beginning params sb
              lcs 0 s).2.1
            (apply_full_rounds_constraints params.full_rounds_beginning params sb
              lcs 0 s).2.2).2.2 := by
  rcases h1 : apply_full_rounds_constraints params.full_rounds_beginning params sb lcs 0 s
    with ⟨l1, o1, s1⟩
  rcases h2 : apply_partial_rounds_constraints params.partial_rounds params sb l1 o1 s1
    with ⟨l2, o2, s2⟩
  simp [Poseidon_permutation_constraints_body, h1, h2]

theorem Poseidon_permutation_constraints_body_spec (lcs : List (LinearCombination F))
    (params : PoseidonParams F) (sb : SboxType) (s : ProverCS F)
    (hlen : lcs.length = params.width) (hpend : s.pending = none)
    (hwf : ∀ lc ∈ lcs, LCWf s.assignment.length lc) :
    CSExtends s (Poseidon_permutation_constraints_body lcs params sb s).2.2 ∧
    (Poseidon_permutation_constraints_body lcs params sb s).1.length = params.width ∧
    (Poseidon_permutation_constraints_body lcs params sb s).2.1
      = (Poseidon_permutation_body (lcs.map (evalLC s.assignment)) params sb).2 ∧
    (Poseidon_permutation_constraints_body lcs params sb s).1.map
        (evalLC (Poseidon_permutation_constraints_body lcs params sb s).2.2.assignment)
      = (Poseidon_permutation_body (lcs.map (evalLC s.assignment)) params sb).1 := by
  obtain ⟨hext1, hpend1, hlen1, hwf1, hcur1, hmap1⟩ :=
    apply_full_rounds_constraints_spec params sb params.full_rounds_beginning lcs 0 s
      hlen hpend hwf
  obtain ⟨hext2, hpend2, hlen2, hwf2, hcur2, hmap2⟩ :=
    apply_partial_rounds_constraints_spec params sb params.partial_rounds
      (apply_full_rounds_constraints params.full_rounds_beginning params sb lcs 0 s).1
      (apply_full_rounds_constraints params.full_rounds_beginning params sb lcs 0 s).2.1
      (apply_full_rounds_constraints params.full_rounds_beginning params sb lcs 0 s).2.2
      hlen1 hpend1 hwf1
  obtain ⟨hext3, hpend3, hlen3, hwf3, hcur3, hmap3⟩ :=
    apply_full_rounds_constraints_spec params sb params.full_rounds_end
      (apply_partial_rounds_constraints params.partial_rounds params sb
        (apply_full_rounds_constraints params.full_rounds_beginning params sb lcs 0 s).1
        (apply_full_rounds_constraints params.full_rounds_beginning params sb lcs 0 s).2.1
        (apply_full_rounds_constraints params.full_rounds_beginning params sb
          lcs 0 s).2.2).1
      (apply_partial_rounds_constraints params.partial_rounds params sb
        (apply_full_rounds_constraints params.full_rounds_beginning params sb lcs 0 s).1
        (apply_full_rounds_constraints params.full_rounds_beginning params sb lcs 0 s).2.1
        (apply_full_rounds_constraints params.full_rounds_beginning params sb
          lcs 0 s).2.2).2.1
      (apply_partial_rounds_constraints params.partial_rounds params sb
        (apply_full_rounds_constraints params.full_rounds_beginning params sb lcs 0 s).1
        (apply_full_rounds_constraints params.full_rounds_beginning params sb lcs 0 s).2.1
        (apply_full_rounds_constraints params.full_rounds_beginning params sb
          lcs 0 s).2.2).2.2
      hlen2 hpend2 hwf2
  rw [Poseidon_permutation_constraints_body_eq, Poseidon_permutation_body_eq]
  rw [← hcur1, ← hmap1, ← hcur2, ← hmap2]
  exact ⟨(hext1.trans hext2).trans hext3, hlen3, hcur3, hmap3⟩

/-! ### Unconditional facts about the constrained partial S-box layer -/

theorem synthesize_partial_sbox_layer_cursor (sb : SboxType) (rks : List F) (width : Nat) :
    ∀ (lcs : List (LinearCombination F)) (i o : Nat) (s : ProverCS F),
      (synthesize_partial_sbox_layer sb rks width i lcs o s).2.1 = o + lcs.length := by
  intro lcs
  induction lcs with
  | nil => intro i o s; rw [synthesize_partial_sbox_layer_nil]; simp
  | cons lc rest ih =>
      intro i o s
      by_cases hieq : i = width - 1
      · rw [synthesize_partial_sbox_layer_cons_sbox sb rks width i lc rest o s hieq]
        dsimp only
        rw [ih]
        simp only [List.length_cons]
        omega
      · rw [synthesize_partial_sbox_layer_cons_skip sb rks width i lc rest o s hieq]
        dsimp only
        rw [ih]
        simp only [List.length_cons]
        omega

/-- In the constrained partial S-box layer, the slots before the last never
touch the constraint system: the final state is exactly the state left by one
S-box synthesis on the last slot, run against the state the layer started
from. -/
theorem synthesize_partial_sbox_layer_cs (sb : SboxType) (rks : List F) (width : Nat) :
    ∀ (lcs : List (LinearCombination F)) (i o : Nat) (s : ProverCS F),
      i + lcs.length = width → 0 < lcs.length →
      (synthesize_partial_sbox_layer sb rks width i lcs o s).2.2
        = (sb.synthesize_sbox s (lcs.getD (lcs.length - 1) LinearCombination.default)
            (rks.getD (o + (lcs.length - 1)) 0)).2 := by
  intro lcs
  induction lcs with
  | nil => intro i o s hi hpos; cases hpos
  | cons lc rest ih =>
      rcases rest with _ | ⟨r, rs⟩
      · intro i o s hi hpos
        have hieq : i = width - 1 := by simp at hi; omega
        rw [synthesize_partial_sbox_layer_cons_sbox sb rks width i lc [] o s hieq,
          synthesize_partial_sbox_layer_nil]
        simp
      · intro i o s hi hpos
        have hne : ¬ i = width - 1 := by simp at hi; omega
        rw [synthesize_partial_sbox_layer_cons_skip sb rks width i lc (r :: rs) o s hne]
        dsimp only
        rw [ih (i + 1) (o + 1) s (by simp at hi ⊢; omega) (by simp)]
        simp only [List.length_cons, Nat.add_sub_cancel, List.getD_cons_succ]
        have harith : o + 1 + rs.length = o + (rs.length + 1) := by omega
        rw [harith]

/-- In the constrained partial S-box layer, slot `j < width - 1` contributes
`state[j] + round_keys[o + j]` as a pure linear combination. -/
theorem synthesize_partial_sbox_layer_getD (sb : SboxType) (rks : List F) (width : Nat) :
    ∀ (lcs : List (LinearCombination F)) (i o : Nat) (s : ProverCS F) (j : Nat),
      i + lcs.length = width → j < lcs.length - 1 →
      (synthesize_partial_sbox_layer sb rks width i lcs o s).1.getD j
          LinearCombination.default
        = LinearCombination.addScalar (lcs.getD j LinearCombination.default)
            (rks.getD (o + j) 0) := by
  intro lcs
  induction lcs with
  | nil => intro i o s j hi hj; simp at hj
  | cons lc rest ih =>
      rcases rest with _ | ⟨r, rs⟩
      · intro i o s j hi hj
        simp at hj
      · intro i o s j hi hj
        have hne : ¬ i = width - 1 := by simp at hi; omega
        rw [synthesize_partial_sbox_layer_cons_skip sb rks width i lc (r :: rs) o s hne]
        dsimp only
        cases j with
        | zero => simp
        | succ m =>
            simp only [List.getD_cons_succ]
            rw [ih (i + 1) (o + 1) s m (by simp at hi ⊢; omega)
              (by simp at hj ⊢; omega)]
            have harith : o + 1 + m = o + (m + 1) := by omega
            rw [harith]

/-! ### Native cursor and length facts -/

theorem full_round_snd (params : PoseidonParams F) (sb : SboxType) (state : List F)
    (o : Nat) (hlen : state.length = params.width) :
    (full_round params sb state o).2 = o + params.width := by
  rw [full_round_eq]
  dsimp only
  rw [sbox_full_layer_snd, hlen]

theorem full_round_length (params : PoseidonParams F) (sb : SboxType) (state : List F)
    (o : Nat) : (full_round params sb state o).1.length = params.width := by
  rw [full_round_eq]
  dsimp only
  exact linear_layer_length _ _ _

theorem partial_round_snd (params : PoseidonParams F) (sb : SboxType) (state : List F)
    (o : Nat) (hlen : state.length = params.width) :
    (partial_round params sb state o).2 = o + params.width := by
  rw [partial_round_eq]
  dsimp only
  rw [add_round_keys_layer_snd, hlen]

theorem partial_round_length (params : PoseidonParams F) (sb : SboxType) (state : List F)
    (o : Nat) : (partial_round params sb state o).1.length = params.width := by
  rw [partial_round_eq]
  dsimp only
  exact linear_layer_length _ _ _

theorem apply_full_rounds_snd (params : PoseidonParams F) (sb : SboxType) :
    ∀ (n : Nat) (state : List F) (o : Nat), state.length = params.width →
      (apply_full_rounds n params sb state o).2 = o + n * params.width := by
  intro n
  induction n with
  | zero => intro state o hlen; simp [apply_full_rounds]
  | succ m ih =>
      intro state o hlen
      rw [apply_full_rounds_succ,
        ih (full_round params sb state o).1 (full_round params sb state o).2
          (full_round_length params sb state o),
        full_round_snd params sb state o hlen]
      ring

theorem apply_full_rounds_length (params : PoseidonParams F) (sb : SboxType) :
    ∀ (n : Nat) (state : List F) (o : Nat), state.length = params.width →
      (apply_full_rounds n params sb state o).1.length = params.width := by
  intro n
  induction n with
  | zero => intro state o hlen; simpa [apply_full_rounds] using hlen
  | succ m ih =>
      intro state o hlen
      rw [apply_full_rounds_succ]
      exact ih _ _ (full_round_length params sb state o)

theorem apply_partial_rounds_snd (params : PoseidonParams F) (sb : SboxType) :
    ∀ (n : Nat) (state : List F) (o : Nat), state.length = params.width →
      (apply_partial_rounds n params sb state o).2 = o + n * params.width := by
  intro n
  induction n with
  | zero => intro state o hlen; simp [apply_partial_rounds]
  | succ m ih =>
      intro state o hlen
      rw [apply_partial_rounds_succ,
        ih (partial_round params sb state o).1 (partial_round params sb state o).2
          (partial_round_length params sb state o),
        partial_round_snd params sb state o hlen]
      ring

theorem apply_partial_rounds_length (params : PoseidonParams F) (sb : SboxType) :
    ∀ (n : Nat) (state : List F) (o : Nat), state.length = params.width →
      (apply_partial_rounds n params sb state o).1.length = params.width := by
  intro n
  induction n with
  | zero => intro state o hlen; simpa [apply_partial_rounds] using hlen
  | succ m ih =>
      intro state o hlen
      rw [apply_partial_rounds_succ]
      exact ih _ _ (partial_round_length params sb state o)

theorem Poseidon_permutation_body_snd (input : List F) (params : PoseidonParams F)
    (sb : SboxType) (hlen : input.length = params.width) :
    (Poseidon_permutation_body input params sb).2
      = (params.full_rounds_beginning + params.partial_rounds + params.full_rounds_end)
          * params.width := by
  rw [Poseidon_permutation_body_eq]
  rw [apply_full_rounds_snd params sb _ _ _
    (apply_partial_rounds_length params sb _ _ _
      (apply_full_rounds_length params sb _ _ _ hlen))]
  rw [apply_partial_rounds_snd params sb _ _ _
    (apply_full_rounds_length params sb _ _ _ hlen)]
  rw [apply_full_rounds_snd params sb _ _ _ hlen]
  ring

theorem Poseidon_permutation_body_length (input : List F) (params : PoseidonParams F)
    (sb : SboxType) (hlen : input.length = params.width) :
    (Poseidon_permutation_body input params sb).1.length = params.width := by
  rw [Poseidon_permutation_body_eq]
  exact apply_full_rounds_length params sb _ _ _
    (apply_partial_rounds_length params sb _ _ _
      (apply_full_rounds_length params sb _ _ _ hlen))

theorem Poseidon_permutation_length {input : List F} {params : PoseidonParams F}
    {sb : SboxType} {out : List F}
    (h : Poseidon_permutation input params sb = some out) :
    out.length = params.width := by
  by_cases hlen : input.length = params.width
  · rw [Poseidon_permutation, if_pos hlen, Option.some_inj] at h
    rw [← h]
    exact Poseidon_permutation_body_length input params sb hlen
  · rw [Poseidon_permutation, if_neg hlen] at h
    cases h

/-! ### Decidability and concrete fixtures for the witnesses -/

instance (n : Nat) (lc : LinearCombination F) : Decidable (LCWf n lc) :=
  inferInstanceAs (Decidable (∀ p ∈ lc, Variable.bound p.1 ≤ n))

instance : Fact (Nat.Prime 101) := ⟨by norm_num⟩

/-- The concrete field of the witnesses. -/
abbrev TF : Type := ZMod 101

/-- A small concrete parameter block: width 3, one full round on each side,
two partial rounds, twelve round keys, a 3 x 3 matrix. -/
def testParams : PoseidonParams TF :=
  ⟨3, 1, 1, 2, [1, 2, 3, 4, 5, 6, 7, 8, 9, 10, 11, 12], [[1, 2, 3], [4, 5, 6], [7, 8, 9]]⟩

/-- Three input wires as linear combinations. -/
def testLCs : List (LinearCombination TF) :=
  [[(Variable.var 0, 1)], [(Variable.var 1, 1)], [(Variable.var 2, 1)]]

/-- A prover state with the three input wires assigned 5, 6, 7. -/
def testCS : ProverCS TF := ⟨[5, 6, 7], 0, none⟩

/-! ### The claims -/

/-- C1: for every width, S-box, round schedule and input vector of linear
combinations, the synthesizer succeeds and, under the witness assignment the
prover accumulates, every returned linear combination evaluates to the
corresponding field element produced by the native permutation on the same
input values, parameters and S-box. -/
theorem C1_constraints_refine_native_permutation (params : PoseidonParams F)
    (sb : SboxType) (lcs : List (LinearCombination F)) (s : ProverCS F)
    (hlen : lcs.length = params.width) (hpend : s.pending = none)
    (hwf : ∀ lc ∈ lcs, LCWf s.assignment.length lc) :
    ∃ outs s1, Poseidon_permutation_constraints lcs params sb s = some (outs, s1) ∧
      Poseidon_permutation (lcs.map (evalLC s.assignment)) params sb
        = some (outs.map (evalLC s1.assignment)) := by
  obtain ⟨hext, hlenO, hcur, hmap⟩ :=
    Poseidon_permutation_constraints_body_spec lcs params sb s hlen hpend hwf
  rcases hbody : Poseidon_permutation_constraints_body lcs params sb s with ⟨outs, o1, s1⟩
  rw [hbody] at hmap
  dsimp only at hmap
  refine ⟨outs, s1, ?_, ?_⟩
  · rw [Poseidon_permutation_constraints, if_pos hlen, hbody]
  · rw [Poseidon_permutation, if_pos (by rw [List.length_map, hlen]), hmap]

/-- Witness for C1: width 3, cube S-box, schedule (1, 2, 1), inputs 5, 6, 7. -/
theorem C1_witness :
    ∃ outs s1,
      Poseidon_permutation_constraints testLCs testParams SboxType.Cube testCS
        = some (outs, s1) ∧
      Poseidon_permutation (testLCs.map (evalLC testCS.assignment)) testParams
          SboxType.Cube
        = some (outs.map (evalLC s1.assignment)) :=
  C1_constraints_refine_native_permutation testParams SboxType.Cube testLCs testCS
    (by decide) (by decide) (by decide)

/-- C2: in a full round every slot i becomes `sbox(state[i] + round_keys[o+i])`
with the cursor advancing once per slot (w in total), and the linear layer
makes output i the inner product of the post-S-box state with column i of the
MDS matrix, indexed `M[j][i]` - not transposed. -/
theorem C2_full_round_sbox_then_columns (params : PoseidonParams F) (sb : SboxType)
    (state : List F) (o i : Nat) (hlen : state.length = params.width)
    (hi : i < params.width) :
    (full_round params sb state o).2 = o + params.width ∧
    (full_round params sb state o).1.length = params.width ∧
    (sbox_full_layer sb params.round_keys state o).1.getD i 0
      = sb.apply_sbox (state.getD i 0 + params.round_keys.getD (o + i) 0) ∧
    (full_round params sb state o).1
      = linear_layer params.MDS_matrix params.width
          (sbox_full_layer sb params.round_keys state o).1 ∧
    (full_round params sb state o).1.getD i 0
      = ∑ j ∈ Finset.range params.width,
          sb.apply_sbox (state.getD j 0 + params.round_keys.getD (o + j) 0)
            * (params.MDS_matrix.getD j []).getD i 0 := by
  refine ⟨full_round_snd params sb state o hlen, full_round_length params sb state o,
    sbox_full_layer_getD sb params.round_keys state o i (by rw [hlen]; exact hi), ?_, ?_⟩
  · rw [full_round_eq]
  · rw [full_round_eq]
    dsimp only
    rw [linear_layer_getD _ _ _ hi]
    refine Finset.sum_congr rfl ?_
    intro j hj
    rw [sbox_full_layer_getD sb params.round_keys state o j
      (by rw [hlen]; exact Finset.mem_range.1 hj)]

/-- Witness for C2: the test parameters at state [5, 6, 7], cursor 0, slot 1. -/
theorem C2_witness :
    (full_round testParams SboxType.Cube [5, 6, 7] 0).2 = 0 + testParams.width ∧
    (full_round testParams SboxType.Cube [5, 6, 7] 0).1.length = testParams.width ∧
    (sbox_full_layer SboxType.Cube testParams.round_keys [5, 6, 7] 0).1.getD 1 0
      = SboxType.Cube.apply_sbox (([5, 6, 7] : List TF).getD 1 0
          + testParams.round_keys.getD (0 + 1) 0) ∧
    (full_round testParams SboxType.Cube [5, 6, 7] 0).1
      = linear_layer testParams.MDS_matrix testParams.width
          (sbox_full_layer SboxType.Cube testParams.round_keys [5, 6, 7] 0).1 ∧
    (full_round testParams SboxType.Cube [5, 6, 7] 0).1.getD 1 0
      = ∑ j ∈ Finset.range testParams.width,
          SboxType.Cube.apply_sbox (([5, 6, 7] : List TF).getD j 0
              + testParams.round_keys.getD (0 + j) 0)
            * (testParams.MDS_matrix.getD j []).getD 1 0 :=
  C2_full_round_sbox_then_columns testParams SboxType.Cube [5, 6, 7] 0 1
    (by decide) (by decide)

/-- C3: a partial round adds a round key to every slot (consuming w keys), the
S-box hits only slot w-1, and the linear layer applied afterwards is the full
round's `linear_layer`; in the constrained path the non-final slots contribute
`state[i] + round_keys[o+i]` as a linear combination and the constraint-system
state is exactly the one left by the single S-box gadget on slot w-1. -/
theorem C3_partial_round_asymmetry (params : PoseidonParams F) (sb : SboxType)
    (state : List F) (lcs : List (LinearCombination F)) (o : Nat) (s : ProverCS F)
    (hw : 0 < params.width) (hlen : state.length = params.width)
    (hlcs : lcs.length = params.width) :
    (partial_round params sb state o).2 = o + params.width ∧
    (∀ i, i < params.width - 1 →
      ((add_round_keys_layer params.round_keys state o).1.set (params.width - 1)
          (sb.apply_sbox ((add_round_keys_layer params.round_keys state o).1.getD
            (params.width - 1) 0))).getD i 0
        = state.getD i 0 + params.round_keys.getD (o + i) 0) ∧
    ((add_round_keys_layer params.round_keys state o).1.set (params.width - 1)
        (sb.apply_sbox ((add_round_keys_layer params.round_keys state o).1.getD
          (params.width - 1) 0))).getD (params.width - 1) 0
      = sb.apply_sbox (state.getD (params.width - 1) 0
          + params.round_keys.getD (o + (params.width - 1)) 0) ∧
    (partial_round params sb state o).1
      = linear_layer params.MDS_matrix params.width
          ((add_round_keys_layer params.round_keys state o).1.set (params.width - 1)
            (sb.apply_sbox ((add_round_keys_layer params.round_keys state o).1.getD
              (params.width - 1) 0))) ∧
    (partial_round_constraints params sb lcs o s).2.1 = o + params.width ∧
    (partial_round_constraints params sb lcs o s).2.2
      = (sb.synthesize_sbox s (lcs.getD (params.width - 1) LinearCombination.default)
          (params.round_keys.getD (o + (params.width - 1)) 0)).2 ∧
    (∀ i, i < params.width - 1 →
      (synthesize_partial_sbox_layer sb params.round_keys params.width 0 lcs o s).1.getD i
          LinearCombination.default
        = LinearCombination.addScalar (lcs.getD i LinearCombination.default)
            (params.round_keys.getD (o + i) 0)) := by
  refine ⟨partial_round_snd params sb state o hlen, ?_, ?_, ?_, ?_, ?_, ?_⟩
  · intro i hi
    rw [List.getD_eq_getElem?_getD, List.getElem?_set_ne (by omega),
      ← List.getD_eq_getElem?_getD]
    exact add_round_keys_layer_getD params.round_keys state o i (by omega)
  · have hidx : params.width - 1
        < (add_round_keys_layer params.round_keys state o).1.length := by
      rw [add_round_keys_layer_length, hlen]; omega
    have hset : ((add_round_keys_layer params.round_keys state o).1.set (params.width - 1)
        (sb.apply_sbox ((add_round_keys_layer params.round_keys state o).1.getD
          (params.width - 1) 0))).getD (params.width - 1) 0
        = sb.apply_sbox ((add_round_keys_layer params.round_keys state o).1.getD
            (params.width - 1) 0) := by
      simp [List.getD_eq_getElem?_getD, List.getElem?_set_self, hidx]
    rw [hset, add_round_keys_layer_getD params.round_keys state o _ (by omega)]
  · rw [partial_round_eq]
  · rw [partial_round_constraints_eq]
    dsimp only
    rw [synthesize_partial_sbox_layer_cursor, hlcs]
  · rw [partial_round_constraints_eq]
    dsimp only
    rw [synthesize_partial_sbox_layer_cs sb params.round_keys params.width lcs 0 o s
      (by omega) (by omega), hlcs]
  · intro i hi
    exact synthesize_partial_sbox_layer_getD sb params.round_keys params.width lcs 0 o s i
      (by omega) (by omega)

/-- Witness for C3: the test parameters, cube S-box, native state [5, 6, 7],
the three input wires, cursor 0. -/
theorem C3_witness :
    (partial_round testParams SboxType.Cube [5, 6, 7] 0).2 = 0 + testParams.width ∧
    (∀ i, i < testParams.width - 1 →
      ((add_round_keys_layer testParams.round_keys [5, 6, 7] 0).1.set
          (testParams.width - 1)
          (SboxType.Cube.apply_sbox
            ((add_round_keys_layer testParams.round_keys [5, 6, 7] 0).1.getD
              (testParams.width - 1) 0))).getD i 0
        = ([5, 6, 7] : List TF).getD i 0 + testParams.round_keys.getD (0 + i) 0) ∧
    ((add_round_keys_layer testParams.round_keys [5, 6, 7] 0).1.set
        (testParams.width - 1)
        (SboxType.Cube.apply_sbox
          ((add_round_keys_layer testParams.round_keys [5, 6, 7] 0).1.getD
            (testParams.width - 1) 0))).getD (testParams.width - 1) 0
      = SboxType.Cube.apply_sbox (([5, 6, 7] : List TF).getD (testParams.width - 1) 0
          + testParams.round_keys.getD (0 + (testParams.width - 1)) 0) ∧
    (partial_round testParams SboxType.Cube [5, 6, 7] 0).1
      = linear_layer testParams.MDS_matrix testParams.width
          ((add_round_keys_layer testParams.round_keys [5, 6, 7] 0).1.set
            (testParams.width - 1)
            (SboxType.Cube.apply_sbox
              ((add_round_keys_layer testParams.round_keys [5, 6, 7] 0).1.getD
                (testParams.width - 1) 0))) ∧
    (partial_round_constraints testParams SboxType.Cube testLCs 0 testCS).2.1
      = 0 + testParams.width ∧
    (partial_round_constraints testParams SboxType.Cube testLCs 0 testCS).2.2
      = (SboxType.Cube.synthesize_sbox testCS
          (testLCs.getD (testParams.width - 1) LinearCombination.default)
          (testParams.round_keys.getD (0 + (testParams.width - 1)) 0)).2 ∧
    (∀ i, i < testParams.width - 1 →
      (synthesize_partial_sbox_layer SboxType.Cube testParams.round_keys testParams.width
          0 testLCs 0 testCS).1.getD i LinearCombination.default
        = LinearCombination.addScalar (testLCs.getD i LinearCombination.default)
            (testParams.round_keys.getD (0 + i) 0)) :=
  C3_partial_round_asymmetry testParams SboxType.Cube [5, 6, 7] testLCs 0 testCS
    (by decide) (by decide) (by decide)

/-- C4: each hash wrapper, given the right number of inputs and a matching
parameter width, runs the permutation on `[C_w, inputs...]` (capacity first)
and returns output index 1, discarding index 0. -/
theorem C4_hash_capacity_first_output_index_1 :
    (∀ (params : PoseidonParams F) (sb : SboxType) (inputs : List F),
      inputs.length = 2 → params.width = 3 →
      ∃ out, Poseidon_permutation (((CAP_CONST_W_3 : Nat) : F) :: inputs) params sb
          = some out ∧ out.length = params.width ∧
        Poseidon_hash_2 inputs params sb = some (Except.ok (out.getD 1 0))) ∧
    (∀ (params : PoseidonParams F) (sb : SboxType) (inputs : List F),
      inputs.length = 4 → params.width = 5 →
      ∃ out, Poseidon_permutation (((CAP_CONST_W_5 : Nat) : F) :: inputs) params sb
          = some out ∧ out.length = params.width ∧
        Poseidon_hash_4 inputs params sb = some (Except.ok (out.getD 1 0))) ∧
    (∀ (params : PoseidonParams F) (sb : SboxType) (inputs : List F),
      inputs.length = 8 → params.width = 9 →
      ∃ out, Poseidon_permutation (((CAP_CONST_W_9 : Nat) : F) :: inputs) params sb
          = some out ∧ out.length = params.width ∧
        Poseidon_hash_8 inputs params sb = some (Except.ok (out.getD 1 0))) := by
  refine ⟨?_, ?_, ?_⟩
  all_goals
    intro params sb inputs hlen hw
  · have hplen : (((CAP_CONST_W_3 : Nat) : F) :: inputs).length = params.width := by
      simp [hlen, hw]
    have hperm : Poseidon_permutation (((CAP_CONST_W_3 : Nat) : F) :: inputs) params sb
        = some (Poseidon_permutation_body
            (((CAP_CONST_W_3 : Nat) : F) :: inputs) params sb).1 := by
      rw [Poseidon_permutation, if_pos hplen]
    have hlt : 1 < (Poseidon_permutation_body
        (((CAP_CONST_W_3 : Nat) : F) :: inputs) params sb).1.length := by
      rw [Poseidon_permutation_body_length _ _ _ hplen, hw]
      omega
    refine ⟨_, hperm, Poseidon_permutation_length hperm, ?_⟩
    rw [Poseidon_hash_2, if_neg (by omega), hperm]
    dsimp only
    rw [List.get?_eq_getElem?, List.getElem?_eq_getElem hlt, List.getD_eq_getElem _ _ hlt]
    rfl
  · have hplen : (((CAP_CONST_W_5 : Nat) : F) :: inputs).length = params.width := by
      simp [hlen, hw]
    have hperm : Poseidon_permutation (((CAP_CONST_W_5 : Nat) : F) :: inputs) params sb
        = some (Poseidon_permutation_body
            (((CAP_CONST_W_5 : Nat) : F) :: inputs) params sb).1 := by
      rw [Poseidon_permutation, if_pos hplen]
    have hlt : 1 < (Poseidon_permutation_body
        (((CAP_CONST_W_5 : Nat) : F) :: inputs) params sb).1.length := by
      rw [Poseidon_permutation_body_length _ _ _ hplen, hw]
      omega
    refine ⟨_, hperm, Poseidon_permutation_length hperm, ?_⟩
    rw [Poseidon_hash_4, if_neg (by omega), hperm]
    dsimp only
    rw [List.get?_eq_getElem?, List.getElem?_eq_getElem hlt, List.getD_eq_getElem _ _ hlt]
    rfl
  · have hplen : (((CAP_CONST_W_9 : Nat) : F) :: inputs).length = params.width := by
      simp [hlen, hw]
    have hperm : Poseidon_permutation (((CAP_CONST_W_9 : Nat) : F) :: inputs) params sb
        = some (Poseidon_permutation_body
            (((CAP_CONST_W_9 : Nat) : F) :: inputs) params sb).1 := by
      rw [Poseidon_permutation, if_pos hplen]
    have hlt : 1 < (Poseidon_permutation_body
        (((CAP_CONST_W_9 : Nat) : F) :: inputs) params sb).1.length := by
      rw [Poseidon_permutation_body_length _ _ _ hplen, hw]
      omega
    refine ⟨_, hperm, Poseidon_permutation_length hperm, ?_⟩
    rw [Poseidon_hash_8, if_neg (by omega), hperm]
    dsimp only
    rw [List.get?_eq_getElem?, List.getElem?_eq_getElem hlt, List.getD_eq_getElem _ _ hlt]
    rfl

/-- Witness for C4: hash of [10, 20] with the width-3 test parameters. -/
theorem C4_witness :
    ∃ out, Poseidon_permutation (((CAP_CONST_W_3 : Nat) : TF) :: [10, 20]) testParams
        SboxType.Cube = some out ∧ out.length = testParams.width ∧
      Poseidon_hash_2 [10, 20] testParams SboxType.Cube
        = some (Except.ok (out.getD 1 0)) :=
  C4_hash_capacity_first_output_index_1.1 testParams SboxType.Cube [10, 20]
    (by decide) (by decide)

/-- C5: the key cursor starts at 0, advances by one per consumed constant
(width per round, from any starting cursor, so it is never reset), and the
permutation returns with cursor exactly `(R_F_beg + R_P + R_F_end) * width`. -/
theorem C5_key_cursor_exhaustion (params : PoseidonParams F) (sb : SboxType) :
    (∀ (state : List F) (o num : Nat), state.length = params.width →
      (apply_full_rounds num params sb state o).2 = o + num * params.width) ∧
    (∀ (state : List F) (o num : Nat), state.length = params.width →
      (apply_partial_rounds num params sb state o).2 = o + num * params.width) ∧
    (∀ input : List F, input.length = params.width →
      (Poseidon_permutation_body input params sb).2
        = (params.full_rounds_beginning + params.partial_rounds
            + params.full_rounds_end) * params.width) :=
  ⟨fun state o num h => apply_full_rounds_snd params sb num state o h,
   fun state o num h => apply_partial_rounds_snd params sb num state o h,
   fun input h => Poseidon_permutation_body_snd input params sb h⟩

/-- Witness for C5: the test parameters consume exactly (1 + 2 + 1) * 3 = 12
round constants on input [5, 6, 7]. -/
theorem C5_witness :
    (Poseidon_permutation_body ([5, 6, 7] : List TF) testParams SboxType.Cube).2
      = (testParams.full_rounds_beginning + testParams.partial_rounds
          + testParams.full_rounds_end) * testParams.width :=
  (C5_key_cursor_exhaustion testParams SboxType.Cube).2.2 [5, 6, 7] (by decide)

/-- C6: the Cube S-box is y * y * y, the Quint S-box is ((y^2)^2) * y = y^5,
and for y ≠ 0 the Inverse S-box returns the multiplicative inverse of y;
at y = 0 no inverse exists (the defining equation fails). -/
theorem C6_sbox_equivalence (y : F) :
    SboxType.Cube.apply_sbox y = y * y * y ∧
    SboxType.Quint.apply_sbox y = ((y * y) * (y * y)) * y ∧
    SboxType.Quint.apply_sbox y = y ^ 5 ∧
    (y ≠ 0 → SboxType.Inverse.apply_sbox y * y = 1) ∧
    SboxType.Inverse.apply_sbox (0 : F) * 0 ≠ 1 := by
  refine ⟨rfl, rfl, ?_, ?_, ?_⟩
  · show y * y * (y * y) * y = y ^ 5
    ring
  · intro hy
    exact inv_mul_cancel₀ hy
  · simp

/-- Witness for C6: 2 is invertible in the test field. -/
theorem C6_witness :
    (2 : TF) ≠ 0 ∧ SboxType.Inverse.apply_sbox (2 : TF) * 2 = 1 :=
  ⟨by decide, (C6_sbox_equivalence (2 : TF)).2.2.2.1 (by decide)⟩

/-- C7: the capacity constants used as the first permutation input are 3, 31
and 511; only the width-3 constant has exactly the low width-1 bits set, while
the width-5 and width-9 constants have the low width bits set (2^5 - 1 and
2^9 - 1), contradicting the "low width-1 bits" description. -/
theorem C7_capacity_constants :
    CAP_CONST_W_3 = 3 ∧ CAP_CONST_W_5 = 31 ∧ CAP_CONST_W_9 = 511 ∧
    CAP_CONST_W_3 = 2 ^ (3 - 1) - 1 ∧
    CAP_CONST_W_5 = 2 ^ 5 - 1 ∧ CAP_CONST_W_5 ≠ 2 ^ (5 - 1) - 1 ∧
    CAP_CONST_W_9 = 2 ^ 9 - 1 ∧ CAP_CONST_W_9 ≠ 2 ^ (9 - 1) - 1 ∧
    (∀ i, CAP_CONST_W_3.testBit i = decide (i < 3 - 1)) ∧
    (∀ i, CAP_CONST_W_5.testBit i = decide (i < 5)) ∧
    (∀ i, CAP_CONST_W_9.testBit i = decide (i < 9)) := by
  refine ⟨rfl, rfl, rfl, rfl, rfl, by decide, rfl, by decide, ?_, ?_, ?_⟩
  · intro i
    have h : CAP_CONST_W_3 = 2 ^ 2 - 1 := rfl
    rw [h, Nat.testBit_two_pow_sub_one]
  · intro i
    have h : CAP_CONST_W_5 = 2 ^ 5 - 1 := rfl
    rw [h, Nat.testBit_two_pow_sub_one]
  · intro i
    have h : CAP_CONST_W_9 = 2 ^ 9 - 1 := rfl
    rw [h, Nat.testBit_two_pow_sub_one]

/-- Counterexample for C7 as stated: the width-5 capacity constant 31 is not
the value with the low 5 - 1 = 4 bits set (which would be 15). -/
theorem C7_counterexample : CAP_CONST_W_5 ≠ 2 ^ (5 - 1) - 1 := by decide

/-- C8: each hash wrapper returns `IncorrectWidthForPoseidon {width = k,
expected = |inputs|}` exactly when the input length differs from the arity k;
with matching arity no arity error can come back. -/
theorem C8_arity_guards :
    (∀ (inputs : List F) (params : PoseidonParams F) (sb : SboxType),
      inputs.length ≠ 2 →
      Poseidon_hash_2 inputs params sb
        = some (Except.error (R1CSError.IncorrectWidthForPoseidon 2 inputs.length))) ∧
    (∀ (inputs : List F) (params : PoseidonParams F) (sb : SboxType) (e : R1CSError),
      Poseidon_hash_2 inputs params sb = some (Except.error e) →
      inputs.length ≠ 2 ∧ e = R1CSError.IncorrectWidthForPoseidon 2 inputs.length) ∧
    (∀ (inputs : List F) (params : PoseidonParams F) (sb : SboxType),
      inputs.length ≠ 4 →
      Poseidon_hash_4 inputs params sb
        = some (Except.error (R1CSError.IncorrectWidthForPoseidon 4 inputs.length))) ∧
    (∀ (inputs : List F) (params : PoseidonParams F) (sb : SboxType) (e : R1CSError),
      Poseidon_hash_4 inputs params sb = some (Except.error e) →
      inputs.length ≠ 4 ∧ e = R1CSError.IncorrectWidthForPoseidon 4 inputs.length) ∧
    (∀ (inputs : List F) (params : PoseidonParams F) (sb : SboxType),
      inputs.length ≠ 8 →
      Poseidon_hash_8 inputs params sb
        = some (Except.error (R1CSError.IncorrectWidthForPoseidon 8 inputs.length))) ∧
    (∀ (inputs : List F) (params : PoseidonParams F) (sb : SboxType) (e : R1CSError),
      Poseidon_hash_8 inputs params sb = some (Except.error e) →
      inputs.length ≠ 8 ∧ e = R1CSError.IncorrectWidthForPoseidon 8 inputs.length) := by
  refine ⟨?_, ?_, ?_, ?_, ?_, ?_⟩
  · intro inputs params sb h
    rw [Poseidon_hash_2, if_pos h]
  · intro inputs params sb e h
    by_cases hlen : inputs.length = 2
    · exfalso
      rw [Poseidon_hash_2, if_neg (by omega)] at h
      rcases hp : Poseidon_permutation (((CAP_CONST_W_3 : Nat) : F) :: inputs) params sb
        with _ | out
      · rw [hp] at h; cases h
      · rw [hp] at h
        dsimp only at h
        rcases hg : out.get? 1 with _ | x
        · rw [hg] at h; cases h
        · rw [hg] at h; simp at h
    · rw [Poseidon_hash_2, if_pos hlen] at h
      simp only [Option.some_inj] at h
      exact ⟨hlen, by
        cases h
        rfl⟩
  · intro inputs params sb h
    rw [Poseidon_hash_4, if_pos h]
  · intro inputs params sb e h
    by_cases hlen : inputs.length = 4
    · exfalso
      rw [Poseidon_hash_4, if_neg (by omega)] at h
      rcases hp : Poseidon_permutation (((CAP_CONST_W_5 : Nat) : F) :: inputs) params sb
        with _ | out
      · rw [hp] at h; cases h
      · rw [hp] at h
        dsimp only at h
        rcases hg : out.get? 1 with _ | x
        · rw [hg] at h; cases h
        · rw [hg] at h; simp at h
    · rw [Poseidon_hash_4, if_pos hlen] at h
      simp only [Option.some_inj] at h
      exact ⟨hlen, by
        cases h
        rfl⟩
  · intro inputs params sb h
    rw [Poseidon_hash_8, if_pos h]
  · intro inputs params sb e h
    by_cases hlen : inputs.length = 8
    · exfalso
      rw [Poseidon_hash_8, if_neg (by omega)] at h
      rcases hp : Poseidon_permutation (((CAP_CONST_W_9 : Nat) : F) :: inputs) params sb
        with _ | out
      · rw [hp] at h; cases h
      · rw [hp] at h
        dsimp only at h
        rcases hg : out.get? 1 with _ | x
        · rw [hg] at h; cases h
        · rw [hg] at h; simp at h
    · rw [Poseidon_hash_8, if_pos hlen] at h
      simp only [Option.some_inj] at h
      exact ⟨hlen, by
        cases h
        rfl⟩

/-- Witness for C8: hash_2 on a single input yields the arity error with
width 2, expected 1. -/
theorem C8_witness :
    Poseidon_hash_2 ([7] : List TF) testParams SboxType.Cube
      = some (Except.error
          (R1CSError.IncorrectWidthForPoseidon 2 ([7] : List TF).length)) :=
  C8_arity_guards.1 [7] testParams SboxType.Cube (by decide)

/-- C9: parameter construction fails for every width outside {3, 5, 9}, for a
round-constant table shorter than total_rounds * width and for an MDS table
that is not exactly width rows of width entries; on success the round keys
are exactly the table's prefix of length total_rounds * width and the MDS
matrix is width by width. -/
theorem C9_params_construction (tables : PoseidonTables F) (width fb fe pr : Nat) :
    (¬ (width = 3 ∨ width = 5 ∨ width = 9) →
      PoseidonParams.new tables width fb fe pr = none) ∧
    ((tables.round_consts width).length < (fb + pr + fe) * width →
      PoseidonParams.new tables width fb fe pr = none) ∧
    ((tables.mds_entries width).length ≠ width →
      PoseidonParams.new tables width fb fe pr = none) ∧
    ((∃ row ∈ tables.mds_entries width, row.length ≠ width) →
      PoseidonParams.new tables width fb fe pr = none) ∧
    (∀ p, PoseidonParams.new tables width fb fe pr = some p →
      p.width = width ∧
      p.round_keys.length = (fb + pr + fe) * width ∧
      p.round_keys = (tables.round_consts width).take ((fb + pr + fe) * width) ∧
      p.MDS_matrix.length = width ∧
      (∀ row ∈ p.MDS_matrix, row.length = width)) := by
  have hunfold : PoseidonParams.new tables width fb fe pr
      = if width ≠ 3 ∧ width ≠ 5 ∧ width ≠ 9 then none
        else
          match (if (tables.round_consts width).length < (fb + pr + fe) * width
              then none
              else some ((tables.round_consts width).take ((fb + pr + fe) * width))),
            (if (tables.mds_entries width).length ≠ width then none
             else if (tables.mds_entries width).all (fun row => row.length = width) then
               some ((List.range width).map (fun i =>
                 (List.range width).map (fun j =>
                   ((tables.mds_entries width).getD i []).getD j 0)))
             else none) with
          | some round_keys, some matrix_2 =>
              some ⟨width, fb, fe, pr, round_keys, matrix_2⟩
          | _, _ => none := rfl
  refine ⟨?_, ?_, ?_, ?_, ?_⟩
  · intro h
    rw [hunfold, if_pos (by omega)]
  · intro h
    rw [hunfold]
    by_cases hwid : width ≠ 3 ∧ width ≠ 5 ∧ width ≠ 9
    · rw [if_pos hwid]
    · rw [if_neg hwid, if_pos h]
  · intro h
    rw [hunfold]
    by_cases hwid : width ≠ 3 ∧ width ≠ 5 ∧ width ≠ 9
    · rw [if_pos hwid]
    · rw [if_neg hwid, if_pos h]
      by_cases hc : (tables.round_consts width).length < (fb + pr + fe) * width
      · rw [if_pos hc]
      · rw [if_neg hc]
  · intro h
    rw [hunfold]
    have hall : ¬ (tables.mds_entries width).all (fun row => row.length = width) := by
      obtain ⟨row, hrow, hne⟩ := h
      simp only [List.all_eq_true, decide_eq_true_eq]
      intro hforall
      exact hne (hforall row hrow)
    by_cases hwid : width ≠ 3 ∧ width ≠ 5 ∧ width ≠ 9
    · rw [if_pos hwid]
    · rw [if_neg hwid]
      by_cases hmdslen : (tables.mds_entries width).length ≠ width
      · rw [if_pos hmdslen]
        by_cases hc : (tables.round_consts width).length < (fb + pr + fe) * width
        · rw [if_pos hc]
        · rw [if_neg hc]
      · rw [if_neg hmdslen, if_neg hall]
        by_cases hc : (tables.round_consts width).length < (fb + pr + fe) * width
        · rw [if_pos hc]
        · rw [if_neg hc]
  · intro p hp
    rw [hunfold] at hp
    by_cases hwid : width ≠ 3 ∧ width ≠ 5 ∧ width ≠ 9
    · rw [if_pos hwid] at hp; cases hp
    · rw [if_neg hwid] at hp
      by_cases hshort : (tables.round_consts width).length < (fb + pr + fe) * width
      · rw [if_pos hshort] at hp; cases hp
      · rw [if_neg hshort] at hp
        by_cases hmdslen : (tables.mds_entries width).length ≠ width
        · rw [if_pos hmdslen] at hp; cases hp
        · rw [if_neg hmdslen] at hp
          by_cases hall : (tables.mds_entries width).all (fun row => row.length = width)
          · rw [if_pos hall] at hp
            simp only [Option.some_inj] at hp
            cases hp
            refine ⟨rfl, ?_, rfl, by simp, ?_⟩
            · rw [List.length_take]
              omega
            · intro row hrow
              obtain ⟨i, hi, rfl⟩ := List.mem_map.1 hrow
              simp
          · rw [if_neg hall] at hp; cases hp

/-- Witness for C9: width 4 is rejected, and a width-3 construction over a
table with nine constants and a 3 x 3 MDS table succeeds with the stated
shapes. -/
theorem C9_witness :
    PoseidonParams.new
        (⟨[1, 2, 3, 4, 5, 6, 7, 8, 9], [], [], [[1, 1, 1], [1, 1, 1], [1, 1, 1]], [], []⟩ :
          PoseidonTables TF) 4 1 1 1 = none ∧
    (∀ p, PoseidonParams.new
        (⟨[1, 2, 3, 4, 5, 6, 7, 8, 9], [], [], [[1, 1, 1], [1, 1, 1], [1, 1, 1]], [], []⟩ :
          PoseidonTables TF) 3 1 1 1 = some p →
      p.width = 3 ∧ p.round_keys.length = (1 + 1 + 1) * 3 ∧
      p.round_keys = ((⟨[1, 2, 3, 4, 5, 6, 7, 8, 9], [], [],
          [[1, 1, 1], [1, 1, 1], [1, 1, 1]], [], []⟩ :
            PoseidonTables TF).round_consts 3).take ((1 + 1 + 1) * 3) ∧
      p.MDS_matrix.length = 3 ∧ (∀ row ∈ p.MDS_matrix, row.length = 3)) :=
  ⟨(C9_params_construction
      (⟨[1, 2, 3, 4, 5, 6, 7, 8, 9], [], [], [[1, 1, 1], [1, 1, 1], [1, 1, 1]], [], []⟩ :
        PoseidonTables TF) 4 1 1 1).1 (by decide),
   (C9_params_construction
      (⟨[1, 2, 3, 4, 5, 6, 7, 8, 9], [], [], [[1, 1, 1], [1, 1, 1], [1, 1, 1]], [], []⟩ :
        PoseidonTables TF) 3 1 1 1).2.2.2.2⟩

/-- C10: the hash wrappers never check that the parameter width matches the
arity; with exactly k inputs but width different from k + 1 they pass the
arity guard and then hit the permutation's width assertion (modelled `none`),
so a normal return forces width = k + 1. -/
theorem C10_hash_requires_matching_width :
    (∀ (inputs : List F) (params : PoseidonParams F) (sb : SboxType),
      inputs.length = 2 → params.width ≠ 3 →
      Poseidon_hash_2 inputs params sb = none) ∧
    (∀ (inputs : List F) (params : PoseidonParams F) (sb : SboxType)
        (r : Except R1CSError F),
      inputs.length = 2 → Poseidon_hash_2 inputs params sb = some r →
      params.width = 3) ∧
    (∀ (inputs : List F) (params : PoseidonParams F) (sb : SboxType),
      inputs.length = 4 → params.width ≠ 5 →
      Poseidon_hash_4 inputs params sb = none) ∧
    (∀ (inputs : List F) (params : PoseidonParams F) (sb : SboxType)
        (r : Except R1CSError F),
      inputs.length = 4 → Poseidon_hash_4 inputs params sb = some r →
      params.width = 5) ∧
    (∀ (inputs : List F) (params : PoseidonParams F) (sb : SboxType),
      inputs.length = 8 → params.width ≠ 9 →
      Poseidon_hash_8 inputs params sb = none) ∧
    (∀ (inputs : List F) (params : PoseidonParams F) (sb : SboxType)
        (r : Except R1CSError F),
      inputs.length = 8 → Poseidon_hash_8 inputs params sb = some r →
      params.width = 9) := by
  have h2 : ∀ (inputs : List F) (params : PoseidonParams F) (sb : SboxType),
      inputs.length = 2 → params.width ≠ 3 →
      Poseidon_hash_2 inputs params sb = none := by
    intro inputs params sb hlen hw
    rw [Poseidon_hash_2, if_neg (by omega), Poseidon_permutation,
      if_neg (by simp [hlen]; omega)]
  have h4 : ∀ (inputs : List F) (params : PoseidonParams F) (sb : SboxType),
      inputs.length = 4 → params.width ≠ 5 →
      Poseidon_hash_4 inputs params sb = none := by
    intro inputs params sb hlen hw
    rw [Poseidon_hash_4, if_neg (by omega), Poseidon_permutation,
      if_neg (by simp [hlen]; omega)]
  have h8 : ∀ (inputs : List F) (params : PoseidonParams F) (sb : SboxType),
      inputs.length = 8 → params.width ≠ 9 →
      Poseidon_hash_8 inputs params sb = none := by
    intro inputs params sb hlen hw
    rw [Poseidon_hash_8, if_neg (by omega), Poseidon_permutation,
      if_neg (by simp [hlen]; omega)]
  refine ⟨h2, ?_, h4, ?_, h8, ?_⟩
  · intro inputs params sb r hlen hr
    by_contra hw
    rw [h2 inputs params sb hlen hw] at hr
    cases hr
  · intro inputs params sb r hlen hr
    by_contra hw
    rw [h4 inputs params sb hlen hw] at hr
    cases hr
  · intro inputs params sb r hlen hr
    by_contra hw
    rw [h8 inputs params sb hlen hw] at hr
    cases hr

/-- Witness for C10: two inputs against a width-5 parameter block make
hash_2 hit the permutation's width assertion. -/
theorem C10_witness :
    Poseidon_hash_2 ([1, 2] : List TF)
      (⟨5, 1, 1, 2, [], []⟩ : PoseidonParams TF) SboxType.Cube = none :=
  C10_hash_requires_matching_width.1 [1, 2] ⟨5, 1, 1, 2, [], []⟩ SboxType.Cube
    (by decide) (by decide)

end Ursa
